import Mathlib

/-!
# Verification development for the flowrs Flow-Free solver

Shallow embedding of the core of the `flowrs` repository (files
`board.rs`, `backtracking.rs`, `astar.rs`, `sat.rs`) together with
theorems settling the frozen claims about it.

Modelling conventions:

* Machine integers (`usize`, `u64`) are modelled as `Nat`; the one place
  where wrapping arithmetic is observable (`grid_hash` in the A* solver,
  `wrapping_mul`/`wrapping_add` on `u64`) reduces modulo `2^64`.
* `HashMap`/`HashSet` iteration order in Rust is unspecified.  Every map
  the algorithms iterate over is keyed by colour and built from
  `Grid::get_endpoints`; the embedding fixes the deterministic
  first-endpoint-discovery (row-major scan) order for those association
  lists and uses it consistently.
* `board.rs` gives `Cell::Endpoint`/`Cell::Path` an extra `solved : bool`
  field that only `fill_guaranteed`/`mark_solved` inspect; the solver
  modules construct and match these variants without naming that field.
  The embedding keeps the field, constructs solver-made cells with
  `solved := false`, and lets solver patterns ignore the flag.
* Loops whose termination is by a finite-state argument in Rust
  (BFS worklists, fixpoint filling, forced-move propagation) take an
  explicit fuel argument; callers pass a fuel that dominates the loop
  variant (`width*height + 1`), mirroring the bound argued in the code.
* `assert!` / index panics are modelled by `Option` results.
-/

namespace Flowrs

/-- The sixteen colour tags of `board.rs`. -/
inductive Colour where
  | Red | Green | Blue | Yellow | Magenta | Orange | Cyan | Brown
  | Purple | White | Gray | Lime | Beige | Navy | Teal | Pink
  deriving DecidableEq, Repr, Inhabited

/-- Rust's `Colour as u64` discriminant (declaration order). -/
def Colour.idx : Colour → Nat
  | .Red => 0 | .Green => 1 | .Blue => 2 | .Yellow => 3
  | .Magenta => 4 | .Orange => 5 | .Cyan => 6 | .Brown => 7
  | .Purple => 8 | .White => 9 | .Gray => 10 | .Lime => 11
  | .Beige => 12 | .Navy => 13 | .Teal => 14 | .Pink => 15

/-- The `{:?}` (Debug) rendering of a colour, used in callback messages. -/
def Colour.debugName : Colour → String
  | .Red => "Red" | .Green => "Green" | .Blue => "Blue" | .Yellow => "Yellow"
  | .Magenta => "Magenta" | .Orange => "Orange" | .Cyan => "Cyan" | .Brown => "Brown"
  | .Purple => "Purple" | .White => "White" | .Gray => "Gray" | .Lime => "Lime"
  | .Beige => "Beige" | .Navy => "Navy" | .Teal => "Teal" | .Pink => "Pink"

/-- `Cell` of `board.rs` (see the header note about the `solved` field). -/
inductive Cell where
  | Empty : Cell
  | Endpoint (colour : Colour) (solved : Bool) : Cell
  | Path (colour : Colour) (solved : Bool) : Cell
  deriving DecidableEq, Repr, Inhabited

/-- `Cell::colour`. -/
def Cell.colour : Cell → Option Colour
  | .Empty => none
  | .Endpoint c _ => some c
  | .Path c _ => some c

/-- `Point` of `board.rs`. -/
structure Point where
  x : Nat
  y : Nat
  deriving DecidableEq, Repr, Inhabited

/-- `Point::neighbors`: the up-to-four in-bounds orthogonal neighbours in
the fixed source order left, right, up, down. -/
def Point.neighbors (p : Point) (width height : Nat) : List Point :=
  (if 0 < p.x then [⟨p.x - 1, p.y⟩] else []) ++
  (if p.x + 1 < width then [⟨p.x + 1, p.y⟩] else []) ++
  (if 0 < p.y then [⟨p.x, p.y - 1⟩] else []) ++
  (if p.y + 1 < height then [⟨p.x, p.y + 1⟩] else [])

/-- `Grid` of `board.rs`: row-major cell matrix. -/
structure Grid where
  width : Nat
  height : Nat
  cells : List (List Cell)
  deriving DecidableEq, Repr, Inhabited

/-- Shape well-formedness of the cell matrix (`vec![vec![...; width]; height]`). -/
def Grid.WF (g : Grid) : Prop :=
  g.cells.length = g.height ∧ ∀ row ∈ g.cells, row.length = g.width

instance (g : Grid) : Decidable g.WF :=
  inferInstanceAs (Decidable (_ ∧ _))

/-- `Grid::get` (out-of-bounds reads, which panic in Rust and never occur
in the algorithms, default to `Empty`). -/
def Grid.get (g : Grid) (p : Point) : Cell :=
  (g.cells.getD p.y []).getD p.x Cell.Empty

/-- `Grid::set`: unconditional store (the source performs no endpoint
check; out-of-bounds writes are a no-op here where Rust would panic). -/
def Grid.set (g : Grid) (p : Point) (cell : Cell) : Grid :=
  { g with cells := g.cells.set p.y ((g.cells.getD p.y []).set p.x cell) }

/-- Does this cell carry colour `c` (a `Path` or `Endpoint` of colour `c`)?
This is the match used by `Grid::connected` and the path enumerations. -/
def colourMatch (c : Colour) : Cell → Bool
  | .Path c' _ => c' = c
  | .Endpoint c' _ => c' = c
  | .Empty => false

/-- The per-neighbour body of the BFS loop of `Grid::connected`: enqueue
an unvisited same-colour neighbour, marking it visited. -/
def bfsPush (g : Grid) (colour : Colour) (acc : List Point × List Point)
    (neighbor : Point) : List Point × List Point :=
  if neighbor ∈ acc.1 then acc
  else if colourMatch colour (g.get neighbor) then
    (neighbor :: acc.1, acc.2 ++ [neighbor])
  else acc

/-- One BFS round of `Grid::connected`: fold the neighbours of `current`
into `(visited, queue)`, enqueueing unvisited same-colour cells. -/
def Grid.connectedFold (g : Grid) (colour : Colour) (current : Point)
    (acc : List Point × List Point) : List Point × List Point :=
  (current.neighbors g.width g.height).foldl (bfsPush g colour) acc

/-- The BFS worklist loop of `Grid::connected`. -/
def Grid.connectedAux (g : Grid) (colour : Colour) (endp : Point) :
    Nat → List Point → List Point → Bool
  | 0, _, _ => false
  | _ + 1, _, [] => false
  | fuel + 1, visited, current :: queue =>
    if current = endp then true
    else
      let acc := g.connectedFold colour current (visited, queue)
      g.connectedAux colour endp fuel acc.1 acc.2

/-- `Grid::connected`: BFS from `start` through cells of colour `colour`. -/
def Grid.connected (g : Grid) (colour : Colour) (start endp : Point) : Bool :=
  g.connectedAux colour endp (g.width * g.height + 1) [start] [start]

/-- `Grid::is_solved`: no empty cell and every colour pair connected. -/
def Grid.is_solved (g : Grid) (endpoints : List (Colour × Point × Point)) : Bool :=
  g.cells.all (fun row => row.all (fun c => c ≠ Cell.Empty)) &&
  endpoints.all (fun e => g.connected e.1 e.2.1 e.2.2)

/-- All endpoint cells of the grid in row-major scan order, as
`(colour, position)` pairs (the scan inside `Grid::get_endpoints`). -/
def Grid.endpointsScan (g : Grid) : List (Colour × Point) :=
  (List.range g.height).flatMap (fun y =>
    (List.range g.width).filterMap (fun x =>
      match g.get ⟨x, y⟩ with
      | Cell.Endpoint c _ => some (c, ⟨x, y⟩)
      | _ => none))

/-- `Grid::get_endpoints`; `none` models the `assert!` panic when some
colour does not have exactly two endpoints.  The association list is in
first-endpoint-discovery order (see header note on `HashMap` order). -/
def Grid.get_endpoints (g : Grid) : Option (List (Colour × Point × Point)) :=
  let eps := g.endpointsScan
  let colours := (eps.map Prod.fst).eraseDups
  if colours.all (fun c => ((eps.filter (fun e => e.1 = c)).length = 2 : Bool)) then
    some (colours.map (fun c =>
      let pts := (eps.filter (fun e => e.1 = c)).map Prod.snd
      (c, pts.getD 0 ⟨0, 0⟩, pts.getD 1 ⟨0, 0⟩)))
  else none

/-- `Grid::mark_solved`: set the `solved` flag on every cell of `colour`. -/
def Grid.mark_solved (g : Grid) (colour : Colour) : Grid :=
  ((List.range g.height).flatMap (fun y =>
      (List.range g.width).map (fun x => (⟨x, y⟩ : Point)))).foldl
    (fun g point =>
      match g.get point with
      | Cell.Endpoint c _ => if c = colour then g.set point (Cell.Endpoint colour true) else g
      | Cell.Path c _ => if c = colour then g.set point (Cell.Path colour true) else g
      | _ => g) g

/-- `on_border` (local fn of `fill_guaranteed`). -/
def on_border (p : Point) (width height : Nat) : Bool :=
  p.x = 0 || p.x = width - 1 || p.y = 0 || p.y = height - 1

/-- `is_adjacent_to_solved` (local fn of `fill_guaranteed`). -/
def is_adjacent_to_solved (grid : Grid) (point : Point) : Bool :=
  (point.neighbors grid.width grid.height).any (fun neighbor =>
    match grid.get neighbor with
    | Cell.Path _ true => true
    | Cell.Endpoint _ true => true
    | _ => false)

/-- `find_all_paths` (local fn of `fill_guaranteed`): enumerate all simple
paths from `current` to `endp` through `Empty` or same-colour cells, in
`neighbors` order.  The mutable visited set/path stack of the source are
threaded functionally (their push/pop discipline is balanced). -/
def find_all_paths (grid : Grid) (colour : Colour) (endp : Point) :
    Nat → Point → List Point → List Point → List (List Point)
  | 0, _, _, _ => []
  | fuel + 1, current, visited, path =>
    if current = endp then [path]
    else
      let visited' := current :: visited
      (current.neighbors grid.width grid.height).foldl
        (fun results neighbor =>
          if neighbor ∈ visited' then results
          else
            match grid.get neighbor with
            | Cell.Empty =>
                results ++ find_all_paths grid colour endp fuel neighbor visited' (path ++ [neighbor])
            | Cell.Path c _ =>
                if c = colour then
                  results ++ find_all_paths grid colour endp fuel neighbor visited' (path ++ [neighbor])
                else results
            | Cell.Endpoint c _ =>
                if c = colour then
                  results ++ find_all_paths grid colour endp fuel neighbor visited' (path ++ [neighbor])
                else results)
        []

/-- Path reconstruction from the `came_from` map in `guaranteed_path_exists`. -/
def reconstructPath : Nat → List (Point × Point) → Point → List Point → List Point
  | 0, _, _, path => path
  | fuel + 1, came_from, cur, path =>
    match came_from.lookup cur with
    | some prev => reconstructPath fuel came_from prev (path ++ [prev])
    | none => path

/-- One BFS round of the restricted search in `guaranteed_path_exists`:
enqueue unvisited neighbours that are (border or adjacent-to-solved) and
`Empty` or same-colour, recording `came_from`. -/
def gpeFold (grid : Grid) (colour : Colour) (current : Point)
    (acc : List Point × List Point × List (Point × Point)) :
    List Point × List Point × List (Point × Point) :=
  (current.neighbors grid.width grid.height).foldl
    (fun acc neighbor =>
      if neighbor ∈ acc.1 then acc
      else if !(on_border neighbor grid.width grid.height || is_adjacent_to_solved grid neighbor) then acc
      else
        match grid.get neighbor with
        | Cell.Empty =>
            (neighbor :: acc.1, acc.2.1 ++ [neighbor], acc.2.2 ++ [(neighbor, current)])
        | Cell.Path c _ =>
            if c = colour then
              (neighbor :: acc.1, acc.2.1 ++ [neighbor], acc.2.2 ++ [(neighbor, current)])
            else acc
        | Cell.Endpoint c _ =>
            if c = colour then
              (neighbor :: acc.1, acc.2.1 ++ [neighbor], acc.2.2 ++ [(neighbor, current)])
            else acc)
    acc

/-- The restricted BFS worklist loop of `guaranteed_path_exists`. -/
def gpeAux (grid : Grid) (colour : Colour) (endp : Point) :
    Nat → List Point → List Point → List (Point × Point) → Option (List Point)
  | 0, _, _, _ => none
  | _ + 1, _, [], _ => none
  | fuel + 1, visited, current :: queue, came_from =>
    if current = endp then
      some ((reconstructPath (grid.width * grid.height + 1) came_from current [current]).reverse)
    else
      let acc := gpeFold grid colour current (visited, queue, came_from)
      gpeAux grid colour endp fuel acc.1 acc.2.1 acc.2.2

/-- `guaranteed_path_exists` (local fn of `fill_guaranteed`): restricted
BFS first; if it fails, fall back to "exactly one global simple path". -/
def guaranteed_path_exists (grid : Grid) (start endp : Point) (colour : Colour) :
    Option (List Point) :=
  match gpeAux grid colour endp (grid.width * grid.height + 1) [start] [start] [] with
  | some path => some path
  | none =>
    let all_paths := find_all_paths grid colour endp (grid.width * grid.height + 1) start [] [start]
    if all_paths.length = 1 then all_paths.head? else none

/-- One pass of the `fill_guaranteed` loop body: collect the updates and
the colours that received updates, reading the unmodified grid. -/
def fillPass (g : Grid) (endpoints : List (Colour × Point × Point)) :
    List (Point × Cell) × List Colour :=
  endpoints.foldl
    (fun (acc : List (Point × Cell) × List Colour) e =>
      let colour := e.1
      let start := e.2.1
      let endp := e.2.2
      if g.connected colour start endp then acc
      else
        let start_valid := on_border start g.width g.height || is_adjacent_to_solved g start
        let end_valid := on_border endp g.width g.height || is_adjacent_to_solved g endp
        if !(start_valid && end_valid) then acc
        else
          match guaranteed_path_exists g start endp colour with
          | some path =>
            let news := (path.filter (fun p => g.get p = Cell.Empty)).map
              (fun p => (p, Cell.Path colour true))
            if news.isEmpty then acc else (acc.1 ++ news, acc.2 ++ [colour])
          | none => acc)
    ([], [])

/-- Apply a collected update list (`for (p, cell) in updates { self.set(p, cell) }`). -/
def applyUpdates (g : Grid) (updates : List (Point × Cell)) : Grid :=
  updates.foldl (fun g u => g.set u.1 u.2) g

/-- The `loop { ... }` of `Grid::fill_guaranteed`, with fuel. -/
def fillLoop (endpoints : List (Colour × Point × Point)) : Nat → Grid → Grid
  | 0, g => g
  | fuel + 1, g =>
    let pass := fillPass g endpoints
    if pass.1.isEmpty then g
    else
      let g' := applyUpdates g pass.1
      let g'' := pass.2.foldl (fun g c => g.mark_solved c) g'
      fillLoop endpoints fuel g''

/-- `Grid::fill_guaranteed`: run the claim/fixpoint loop.  Each productive
pass fills at least one `Empty` cell, so `width*height + 1` rounds of fuel
dominate the loop. -/
def Grid.fill_guaranteed (g : Grid) (endpoints : List (Colour × Point × Point)) : Grid :=
  fillLoop endpoints (g.width * g.height + 1) g

/-- `SolveResult` of `backtracking.rs`. -/
inductive SolveResult where
  | Solved
  | Impossible
  deriving DecidableEq, Repr

/-- `find_paths` of `backtracking.rs`: identical enumeration to
`find_all_paths` except that the top-level call starts from an empty path
stack (the source duplicates the function; the three match arms for
`Empty` / own-colour `Path` / own-colour `Endpoint` recurse identically). -/
def find_paths (grid : Grid) (colour : Colour) (endp : Point) :
    Nat → Point → List Point → List Point → List (List Point)
  | 0, _, _, _ => []
  | fuel + 1, current, visited, path =>
    if current = endp then [path]
    else
      let visited' := current :: visited
      (current.neighbors grid.width grid.height).foldl
        (fun results neighbour =>
          if neighbour ∈ visited' then results
          else
            match grid.get neighbour with
            | Cell.Empty =>
                results ++ find_paths grid colour endp fuel neighbour visited' (path ++ [neighbour])
            | Cell.Path c _ =>
                if c = colour then
                  results ++ find_paths grid colour endp fuel neighbour visited' (path ++ [neighbour])
                else results
            | Cell.Endpoint c _ =>
                if c = colour then
                  results ++ find_paths grid colour endp fuel neighbour visited' (path ++ [neighbour])
                else results)
        []

/-- Paint the `Empty` cells of a candidate path with `Path { colour }`
(the loop before the recursive call in `backtrack`). -/
def paintPath (colour : Colour) (path : List Point) (g : Grid) : Grid :=
  path.foldl
    (fun g p => if g.get p = Cell.Empty then g.set p (Cell.Path colour false) else g) g

/-- Undo loop of `backtrack`: clear every cell of the candidate path that
is still `Path { colour }`. -/
def unpaintPath (colour : Colour) (path : List Point) (g : Grid) : Grid :=
  path.foldl
    (fun g p =>
      match g.get p with
      | Cell.Path c _ => if c = colour then g.set p Cell.Empty else g
      | _ => g) g

/-- The `for path in all_paths` loop of `backtrack`, parameterised by the
recursive continuation `next` for the following pair index. -/
def tryPaths (endpoints : List (Colour × Point × Point)) (colour : Colour)
    (next : Grid → Bool × Grid) : List (List Point) → Grid → Bool × Grid
  | [], g => (false, g)
  | path :: rest, g =>
    let g1 := (paintPath colour path g).fill_guaranteed endpoints
    let r := next g1
    if r.1 then (true, r.2)
    else tryPaths endpoints colour next rest (unpaintPath colour path r.2)

/-- `backtrack` (local fn of `brute_force`).  The recursion advances the
pair index; `fuel = pairs.length + 1` makes the fuel case unreachable. -/
def backtrack (pairs endpoints : List (Colour × Point × Point)) :
    Nat → Nat → Grid → Bool × Grid
  | 0, _, g => (false, g)
  | fuel + 1, index, g =>
    match pairs.get? index with
    | none => (g.is_solved endpoints, g)
    | some e =>
      let colour := e.1
      let start := e.2.1
      let endp := e.2.2
      if g.connected colour start endp then
        backtrack pairs endpoints fuel (index + 1) g
      else
        let all_paths := find_paths g colour endp (g.width * g.height + 1) start [] []
        if all_paths.isEmpty then (false, g)
        else tryPaths endpoints colour (backtrack pairs endpoints fuel (index + 1)) all_paths g

/-- `brute_force`: returns the result together with the final state of the
in-place mutated grid; `none` models the `assert!` panic inside
`get_endpoints` for malformed inputs. -/
def brute_force (grid : Grid) : Option (SolveResult × Grid) :=
  match grid.get_endpoints with
  | none => none
  | some endpoints =>
    let g := grid.fill_guaranteed endpoints
    let r := backtrack endpoints endpoints (endpoints.length + 1) 0 g
    some (if r.1 then SolveResult.Solved else SolveResult.Impossible, r.2)

/-- The Rust `format!` message announcing a path trial. -/
def tryingMsg (path_idx : Nat) (colour : Colour) : String :=
  "Trying path " ++ toString (path_idx + 1) ++ " for colour " ++ colour.debugName

/-- The Rust `format!` message announcing a backtrack step. -/
def backtrackingMsg (colour : Colour) : String :=
  "Backtracking from colour " ++ colour.debugName

/-- The step callback type of `brute_force_with_callback`. -/
def StepCallback : Type := Grid → Nat → String → Bool

/-- The `for (path_idx, path) in all_paths.iter().enumerate()` loop of the
callback variant of `backtrack`; threads the step counter and the
user-cancellation flag. -/
def tryPathsCB (endpoints : List (Colour × Point × Point)) (colour : Colour)
    (callback : StepCallback) (next : Grid → Nat → Bool × Grid × Nat) :
    Nat → List (List Point) → Grid → Nat → Bool × Grid × Nat
  | _, [], g, step_count => (false, g, step_count)
  | path_idx, path :: rest, g, step_count =>
    let step_count1 := step_count + 1
    let g1 := (paintPath colour path g).fill_guaranteed endpoints
    if !callback g1 step_count1 (tryingMsg path_idx colour) then (false, g1, step_count1)
    else
      let r := next g1 step_count1
      if r.1 then (true, r.2)
      else
        let step_count2 := r.2.2 + 1
        let g2 := unpaintPath colour path r.2.1
        if !callback g2 step_count2 (backtrackingMsg colour) then (false, g2, step_count2)
        else tryPathsCB endpoints colour callback next (path_idx + 1) rest g2 step_count2

/-- `backtrack` (local fn of `brute_force_with_callback`). -/
def backtrackCB (pairs endpoints : List (Colour × Point × Point)) (callback : StepCallback) :
    Nat → Nat → Grid → Nat → Bool × Grid × Nat
  | 0, _, g, step_count => (false, g, step_count)
  | fuel + 1, index, g, step_count =>
    match pairs.get? index with
    | none => (g.is_solved endpoints, g, step_count)
    | some e =>
      let colour := e.1
      let start := e.2.1
      let endp := e.2.2
      if g.connected colour start endp then
        backtrackCB pairs endpoints callback fuel (index + 1) g step_count
      else
        let all_paths := find_paths g colour endp (g.width * g.height + 1) start [] []
        if all_paths.isEmpty then (false, g, step_count)
        else
          tryPathsCB endpoints colour callback
            (backtrackCB pairs endpoints callback fuel (index + 1)) 0 all_paths g step_count

/-- `brute_force_with_callback`. -/
def brute_force_with_callback (grid : Grid) (callback : StepCallback) :
    Option (SolveResult × Grid) :=
  match grid.get_endpoints with
  | none => none
  | some endpoints =>
    let g := grid.fill_guaranteed endpoints
    let r := backtrackCB endpoints endpoints callback (endpoints.length + 1) 0 g 0
    some (if r.1 then SolveResult.Solved else SolveResult.Impossible, r.2.1)

/-- `State` of `astar.rs`. -/
structure AState where
  grid : Grid
  endpoints : List (Colour × Point × Point)
  paths : List (Colour × List Point)
  cost : Nat
  estimate : Nat
  deriving DecidableEq, Repr, Inhabited

/-- The `Ord` implementation of `astar.rs`:
`other.estimate.cmp(&self.estimate)` — it compares estimates only
(reversed, so that Rust's max-`BinaryHeap` pops a minimal-estimate state). -/
def stateCmp (a other : AState) : Ordering :=
  compare other.estimate a.estimate

/-- `heuristic`: the number of `Empty` cells of the grid. -/
def heuristic (grid : Grid) : Nat :=
  (grid.cells.map (fun row => (row.filter (fun c => c = Cell.Empty)).length)).sum

/-- `dead_end`: some empty cell has at least three path/endpoint neighbours. -/
def dead_end (grid : Grid) : Bool :=
  (List.range grid.height).any (fun y =>
    (List.range grid.width).any (fun x =>
      let p : Point := ⟨x, y⟩
      grid.get p = Cell.Empty &&
        3 ≤ ((p.neighbors grid.width grid.height).filter
          (fun n => grid.get n ≠ Cell.Empty)).length))

/-- Flood-fill loop inside `label_regions`: propagate `next_label` from the
queue through empty unlabelled cells.  Labels use `Int` (`-1` = unset). -/
def floodFill (grid : Grid) (next_label : Int) :
    Nat → List (List Int) → List (Nat × Nat) → List (List Int)
  | 0, labels, _ => labels
  | _ + 1, labels, [] => labels
  | fuel + 1, labels, (cx, cy) :: queue =>
    let p : Point := ⟨cx, cy⟩
    let step := (p.neighbors grid.width grid.height).foldl
      (fun (acc : List (List Int) × List (Nat × Nat)) n =>
        if grid.get n = Cell.Empty && (acc.1.getD n.y []).getD n.x (-1) = -1 then
          (acc.1.set n.y ((acc.1.getD n.y []).set n.x next_label), acc.2 ++ [(n.x, n.y)])
        else acc)
      (labels, queue)
    floodFill grid next_label fuel step.1 step.2

/-- `label_regions`: label the 4-connected components of empty cells. -/
def label_regions (grid : Grid) : List (List Int) :=
  let init : List (List Int) := List.replicate grid.height (List.replicate grid.width (-1))
  ((List.range grid.height).flatMap (fun y =>
      (List.range grid.width).map (fun x => (x, y)))).foldl
    (fun (acc : List (List Int) × Int) xy =>
      let x := xy.1
      let y := xy.2
      if (grid.cells.getD y []).getD x Cell.Empty = Cell.Empty ∧
          (acc.1.getD y []).getD x (-1) = -1 then
        let labels := acc.1.set y ((acc.1.getD y []).set x acc.2)
        (floodFill grid acc.2 (grid.width * grid.height + 1) labels [(x, y)], acc.2 + 1)
      else acc)
    (init, 0) |>.1

/-- The two touch maps built by `stranded`: for each region label the
colours touching it, and for each colour the labels it touches. -/
def strandedTouches (grid : Grid) (endpoints : List (Colour × Point × Point))
    (paths : List (Colour × List Point)) (labels : List (List Int)) :
    List (List Colour) × List (Colour × List Int) :=
  paths.foldl
    (fun acc cp =>
      let colour := cp.1
      let last := cp.2.getLastD ⟨0, 0⟩
      let endp := (endpoints.lookup colour).map (fun e => e.2) |>.getD ⟨0, 0⟩
      [last, endp].foldl
        (fun (acc : List (List Colour) × List (Colour × List Int)) p =>
          (p.neighbors grid.width grid.height).foldl
            (fun acc n =>
              if grid.get n = Cell.Empty then
                let label := (labels.getD n.y []).getD n.x (-1)
                if 0 ≤ label then
                  let idx := label.toNat
                  let region := acc.1.getD idx []
                  let region' := if colour ∈ region then region else region ++ [colour]
                  let ctouch := (acc.2.lookup colour).getD []
                  let ctouch' := if label ∈ ctouch then ctouch else ctouch ++ [label]
                  (acc.1.set idx region',
                   if (acc.2.lookup colour).isSome then
                     acc.2.map (fun e => if e.1 = colour then (e.1, ctouch') else e)
                   else acc.2 ++ [(colour, ctouch')])
                else acc
              else acc)
            acc)
        acc)
    (List.replicate (grid.width * grid.height) [], [])

/-- `stranded`: region-stranding pruning of `astar.rs`. -/
def stranded (grid : Grid) (endpoints : List (Colour × Point × Point))
    (paths : List (Colour × List Point)) : Bool :=
  let labels := label_regions grid
  let touches := strandedTouches grid endpoints paths labels
  let region_touches := touches.1
  let colour_touches := touches.2
  (paths.any (fun cp =>
    let colour := cp.1
    let last := cp.2.getLastD ⟨0, 0⟩
    let endp := (endpoints.lookup colour).map (fun e => e.2) |>.getD ⟨0, 0⟩
    if last = endp then false
    else
      !((List.range region_touches.length).any (fun label =>
        colour ∈ region_touches.getD label [] &&
          ((colour_touches.lookup colour).getD []).contains (label : Int))))) ||
  ((List.range region_touches.length).any (fun label =>
    !(region_touches.getD label []).isEmpty &&
      !(paths.any (fun cp =>
        let colour := cp.1
        let last := cp.2.getLastD ⟨0, 0⟩
        let endp := (endpoints.lookup colour).map (fun e => e.2) |>.getD ⟨0, 0⟩
        if last = endp then false
        else ((colour_touches.lookup colour).getD []).contains (label : Int)))))

/-- `get_forced_moves`: a head with exactly one empty neighbour, else an
empty cell adjacent to exactly one flow head. -/
def get_forced_moves (grid : Grid) (endpoints : List (Colour × Point × Point))
    (paths : List (Colour × List Point)) : Option (Colour × Point) :=
  let rule1 := paths.findSome? (fun cp =>
    let colour := cp.1
    let last := cp.2.getLastD ⟨0, 0⟩
    let endp := (endpoints.lookup colour).map (fun e => e.2) |>.getD ⟨0, 0⟩
    if last == endp then none
    else
      match (last.neighbors grid.width grid.height).filter (fun n => grid.get n = Cell.Empty) with
      | [m] => some (colour, m)
      | _ => none)
  match rule1 with
  | some r => some r
  | none =>
    (List.range grid.height).findSome? (fun y =>
      (List.range grid.width).findSome? (fun x =>
        let p : Point := ⟨x, y⟩
        if grid.get p = Cell.Empty then
          match (p.neighbors grid.width grid.height).flatMap (fun n =>
            paths.filterMap (fun cp =>
              if n = cp.2.getLastD ⟨0, 0⟩ then some cp.1 else none)) with
          | [c] => some (c, p)
          | _ => none
        else none))

/-- `get_active_colour`: the unfinished colour whose head has strictly the
fewest empty neighbours, first in iteration order. -/
def get_active_colour (grid : Grid) (endpoints : List (Colour × Point × Point))
    (paths : List (Colour × List Point)) : Option Colour :=
  (paths.foldl
    (fun (acc : Nat × Option Colour) cp =>
      let colour := cp.1
      let last := cp.2.getLastD ⟨0, 0⟩
      let endp := (endpoints.lookup colour).map (fun e => e.2) |>.getD ⟨0, 0⟩
      if last == endp then acc
      else
        let moves := ((last.neighbors grid.width grid.height).filter
          (fun n => grid.get n = Cell.Empty)).length
        if moves < acc.1 then (moves, some colour) else acc)
    (1000000000, none)).2

/-- Replace the path of `colour` (`HashMap::insert` on an existing key). -/
def updatePaths (paths : List (Colour × List Point)) (colour : Colour)
    (path : List Point) : List (Colour × List Point) :=
  paths.map (fun cp => if cp.1 = colour then (colour, path) else cp)

/-- The forced-move propagation `loop` of `solve_astar`.  Note the source
keeps `cost` unchanged and resets `estimate` to the bare heuristic. -/
def propagate (fuel : Nat) (s : AState) : AState :=
  match fuel with
  | 0 => s
  | fuel + 1 =>
    match get_forced_moves s.grid s.endpoints s.paths with
    | some cm =>
      let colour := cm.1
      let forced_move := cm.2
      let new_grid := s.grid.set forced_move (Cell.Path colour false)
      let new_path := ((s.paths.lookup colour).getD []) ++ [forced_move]
      propagate fuel
        { grid := new_grid, endpoints := s.endpoints,
          paths := updatePaths s.paths colour new_path,
          cost := s.cost, estimate := heuristic new_grid }
    | none => s

/-- `cell hashing` fold of `solve_astar` (`u64` wrapping arithmetic). -/
def grid_hash (g : Grid) : Nat :=
  (g.cells.flatMap id).foldl
    (fun acc c =>
      (acc * 31 +
        (match c with
         | Cell.Empty => 0
         | Cell.Endpoint colour _ => 1 + colour.idx
         | Cell.Path colour _ => 100 + colour.idx)) % (2 ^ 64)) 0

/-- The per-neighbour push of the successor loop of `solve_astar`: an
empty neighbour is painted and enqueued, the active colour's own goal
endpoint is enqueued without painting, anything else is skipped. -/
def successorStep (s : AState) (active_colour : Colour) (path : List Point)
    (acc : List AState) (neighbor : Point) : List AState :=
  match s.grid.get neighbor with
  | Cell.Empty =>
    acc ++ [{ grid := s.grid.set neighbor (Cell.Path active_colour false),
              endpoints := s.endpoints,
              paths := updatePaths s.paths active_colour (path ++ [neighbor]),
              cost := s.cost + 1,
              estimate := s.cost + 1 +
                heuristic (s.grid.set neighbor (Cell.Path active_colour false)) }]
  | Cell.Endpoint c _ =>
    if c = active_colour then
      acc ++ [{ grid := s.grid, endpoints := s.endpoints,
                paths := updatePaths s.paths active_colour (path ++ [neighbor]),
                cost := s.cost + 1, estimate := s.cost + 1 + heuristic s.grid }]
    else acc
  | _ => acc

/-- Successor generation of `solve_astar`: extend the active colour's head
to each empty neighbour, or to its goal endpoint when adjacent. -/
def successors (s : AState) : List AState :=
  match get_active_colour s.grid s.endpoints s.paths with
  | none => []
  | some active_colour =>
    let path := (s.paths.lookup active_colour).getD []
    let last := path.getLastD ⟨0, 0⟩
    let endp := (s.endpoints.lookup active_colour).map (fun e => e.2) |>.getD ⟨0, 0⟩
    if last = endp then []
    else
      (last.neighbors s.grid.width s.grid.height).foldl
        (successorStep s active_colour path) []

/-- Pop a state the reversed-`Ord` `BinaryHeap` may return: a state of
minimal `estimate` (the deterministic abstraction takes the first such
state; `BinaryHeap` leaves the tie choice unspecified). -/
def popMin : List AState → Option (AState × List AState)
  | [] => none
  | s :: rest =>
    match popMin rest with
    | none => some (s, [])
    | some r => if s.estimate ≤ r.1.estimate then some (s, rest) else (some (r.1, s :: r.2))

/-- One iteration of the `while let Some(state) = open.pop()` loop of
`solve_astar`: either a final answer or the next `(open, visited)` pair. -/
def astarStep (st : List AState × List Nat) :
    (Option Grid) ⊕ (List AState × List Nat) :=
  match popMin st.1 with
  | none => Sum.inl none
  | some sr =>
    if grid_hash sr.1.grid ∈ st.2 then Sum.inr (sr.2, st.2)
    else
      if dead_end sr.1.grid || stranded sr.1.grid sr.1.endpoints sr.1.paths then
        Sum.inr (sr.2, grid_hash sr.1.grid :: st.2)
      else
        if (propagate (sr.1.grid.width * sr.1.grid.height + 1) sr.1).grid.is_solved
            (propagate (sr.1.grid.width * sr.1.grid.height + 1) sr.1).endpoints then
          Sum.inl (some (propagate (sr.1.grid.width * sr.1.grid.height + 1) sr.1).grid)
        else
          Sum.inr (sr.2 ++ successors (propagate (sr.1.grid.width * sr.1.grid.height + 1) sr.1),
                   grid_hash sr.1.grid :: st.2)

/-- Iterate `astarStep` under fuel. -/
def astarLoop : Nat → List AState × List Nat → Option Grid
  | 0, _ => none
  | fuel + 1, st =>
    match astarStep st with
    | Sum.inl r => r
    | Sum.inr st' => astarLoop fuel st'

/-- The initial A* state built by `solve_astar`. -/
def initialState (grid : Grid) (endpoints : List (Colour × Point × Point)) : AState :=
  { grid := grid, endpoints := endpoints,
    paths := endpoints.map (fun e => (e.1, [e.2.1])),
    cost := 0, estimate := heuristic grid }

/-- `solve_astar`; `none` models the `get_endpoints` panic on malformed
input, and the search fuel is an explicit parameter (the Rust loop
terminates by finiteness of the hashed-grid space). -/
def solve_astar (fuel : Nat) (grid : Grid) : Option Grid :=
  match grid.get_endpoints with
  | none => none
  | some endpoints => astarLoop fuel ([initialState grid endpoints], [])

/-! ## SAT encoding (`sat.rs`)

Variables are the 1-based DIMACS indices produced by the sequential
`next_var` counter: first `x(p, c)` in (y, x, colour-list) order, then
`y(p, t)` for non-endpoint cells in (y, x, DIR_TYPES) order.  A clause is
a list of non-zero integers; an assignment maps variable indices to
booleans.  The external `varisat` engine is abstracted by the assignment:
the theorems quantify over satisfying assignments of the formula. -/

def LEFT : Nat := 1
def RIGHT : Nat := 2
def TOP : Nat := 4
def BOTTOM : Nat := 8

def DIR_TYPES : List Nat :=
  [LEFT ||| RIGHT, TOP ||| BOTTOM, TOP ||| LEFT, TOP ||| RIGHT, BOTTOM ||| LEFT,
   BOTTOM ||| RIGHT]

/-- Index of a colour in the colour list (`var_map` insertion order). -/
def colourPos (colours : List Colour) (c : Colour) : Nat :=
  (colours.indexOf c)

/-- The `var_map` entry for `x(p, c)` (1-based DIMACS index). -/
def xVar (g : Grid) (colours : List Colour) (p : Point) (c : Colour) : Nat :=
  (p.y * g.width + p.x) * colours.length + colourPos colours c + 1

/-- Number of non-endpoint cells strictly before `p` in the row-major scan. -/
def nonEndpointRank (g : Grid) (p : Point) : Nat :=
  (((List.range g.height).flatMap (fun y =>
      (List.range g.width).map (fun x => (⟨x, y⟩ : Point)))).takeWhile
    (fun q => q ≠ p)).countP
    (fun q => match g.get q with | Cell.Endpoint _ _ => false | _ => true)

/-- The `dir_map` entry for `y(p, t)` (1-based DIMACS index), valid for
non-endpoint `p` and `t ∈ DIR_TYPES`. -/
def yDirVar (g : Grid) (colours : List Colour) (p : Point) (t : Nat) : Nat :=
  g.width * g.height * colours.length + (nonEndpointRank g p) * 6 +
    DIR_TYPES.indexOf t + 1

/-- Literal evaluation (positive literal `v`, negative literal `-v`). -/
def evalLit (σ : Nat → Bool) (l : Int) : Bool :=
  if 0 < l then σ l.toNat else !σ (-l).toNat

/-- Clause evaluation: some literal is true. -/
def evalClause (σ : Nat → Bool) (c : List Int) : Bool :=
  c.any (fun l => evalLit σ l)

/-- Formula satisfaction. -/
def satisfies (σ : Nat → Bool) (f : List (List Int)) : Bool :=
  f.all (fun c => evalClause σ c)

/-- Pairwise at-most-one clauses over a literal list (the nested
`for i / for j in i+1..` loops). -/
def amoPairs (vars : List Int) : List (List Int) :=
  match vars with
  | [] => []
  | v :: rest => rest.map (fun w => [-v, -w]) ++ amoPairs rest

/-- Clause group 1: every cell exactly one colour. -/
def cellColourClauses (g : Grid) (colours : List Colour) : List (List Int) :=
  ((List.range g.height).flatMap (fun y =>
      (List.range g.width).map (fun x => (⟨x, y⟩ : Point)))).flatMap
    (fun p =>
      let vars : List Int := colours.map (fun c => (xVar g colours p c : Int))
      vars :: amoPairs vars)

/-- Clause group 2: endpoint colour fixing and endpoint degree. -/
def endpointClauses (g : Grid) (colours : List Colour)
    (endpoints : List (Colour × Point × Point)) : List (List Int) :=
  endpoints.flatMap (fun e =>
    let colour := e.1
    let p1 := e.2.1
    let p2 := e.2.2
    [[(xVar g colours p1 colour : Int)], [(xVar g colours p2 colour : Int)]] ++
    (colours.flatMap (fun other =>
      if other ≠ colour then
        [[-(xVar g colours p1 other : Int)], [-(xVar g colours p2 other : Int)]]
      else [])) ++
    ([p1, p2].flatMap (fun point =>
      let neighbor_vars : List Int :=
        (point.neighbors g.width g.height).map (fun n => (xVar g colours n colour : Int))
      neighbor_vars :: amoPairs neighbor_vars)))

/-- Clause group 3: exactly one direction type per non-endpoint cell. -/
def dirTypeClauses (g : Grid) (colours : List Colour) : List (List Int) :=
  ((List.range g.height).flatMap (fun y =>
      (List.range g.width).map (fun x => (⟨x, y⟩ : Point)))).flatMap
    (fun p =>
      match g.get p with
      | Cell.Endpoint _ _ => []
      | _ =>
        let dir_vars : List Int := DIR_TYPES.map (fun t => (yDirVar g colours p t : Int))
        dir_vars :: amoPairs dir_vars)

/-- The two neighbours named by a direction type relative to `(x, y)`
after the in-bounds filter (`wrapping_sub` coordinates fail the bound
check exactly when the coordinate is zero). -/
def validNeighbors (g : Grid) (x y t : Nat) : List (Nat × Nat) :=
  (if t = (LEFT ||| RIGHT) then
    (if 0 < x then [(x - 1, y)] else []) ++ (if x + 1 < g.width then [(x + 1, y)] else [])
  else if t = (TOP ||| BOTTOM) then
    (if 0 < y then [(x, y - 1)] else []) ++ (if y + 1 < g.height then [(x, y + 1)] else [])
  else if t = (TOP ||| LEFT) then
    (if 0 < x then [(x - 1, y)] else []) ++ (if 0 < y then [(x, y - 1)] else [])
  else if t = (TOP ||| RIGHT) then
    (if x + 1 < g.width then [(x + 1, y)] else []) ++ (if 0 < y then [(x, y - 1)] else [])
  else if t = (BOTTOM ||| LEFT) then
    (if 0 < x then [(x - 1, y)] else []) ++ (if y + 1 < g.height then [(x, y + 1)] else [])
  else if t = (BOTTOM ||| RIGHT) then
    (if x + 1 < g.width then [(x + 1, y)] else []) ++ (if y + 1 < g.height then [(x, y + 1)] else [])
  else [])

/-- Clause group 4: direction semantics and self-touching prevention.
When the direction type does not name two in-bounds neighbours the
source `continue`s, emitting no clause at all for that `(p, c, t)`. -/
def dirSemanticClauses (g : Grid) (colours : List Colour) : List (List Int) :=
  ((List.range g.height).flatMap (fun y =>
      (List.range g.width).map (fun x => (x, y)))).flatMap
    (fun xy =>
      let x := xy.1
      let y := xy.2
      let point : Point := ⟨x, y⟩
      match g.get point with
      | Cell.Endpoint _ _ => []
      | _ =>
        colours.flatMap (fun colour =>
          let cell_var : Int := (xVar g colours point colour : Int)
          DIR_TYPES.flatMap (fun dir_type =>
            let dir_var : Int := (yDirVar g colours point dir_type : Int)
            let valid := validNeighbors g x y dir_type
            if valid.length ≠ 2 then []
            else
              let n1 := valid.getD 0 (0, 0)
              let n2 := valid.getD 1 (0, 0)
              let n1_var : Int := (xVar g colours ⟨n1.1, n1.2⟩ colour : Int)
              let n2_var : Int := (xVar g colours ⟨n2.1, n2.2⟩ colour : Int)
              [[-dir_var, -cell_var, n1_var], [-dir_var, cell_var, -n1_var],
               [-dir_var, -cell_var, n2_var], [-dir_var, cell_var, -n2_var]] ++
              (point.neighbors g.width g.height).filterMap (fun n =>
                if (n.x, n.y) ∈ valid then none
                else some [-dir_var, -cell_var, -(xVar g colours n colour : Int)]))))

/-- The complete CNF built by `solve_sat`, in source emission order. -/
def buildFormula (g : Grid) (colours : List Colour)
    (endpoints : List (Colour × Point × Point)) : List (List Int) :=
  cellColourClauses g colours ++ endpointClauses g colours endpoints ++
  dirTypeClauses g colours ++ dirSemanticClauses g colours

/-- The per-cell step of `solve_sat`'s model decoding: take the first
colour whose `x` variable is positive (an endpoint cell decodes to
`Endpoint`, the rest to `Path`); `none` when no colour variable is
positive. -/
def decodeCell (g : Grid) (colours : List Colour) (σ : Nat → Bool)
    (acc : Option Grid) (p : Point) : Option Grid :=
  match acc with
  | none => none
  | some new_grid =>
    match colours.find? (fun c => σ (xVar g colours p c)) with
    | none => none
    | some colour =>
      match g.get p with
      | Cell.Endpoint _ _ => some (new_grid.set p (Cell.Endpoint colour false))
      | _ => some (new_grid.set p (Cell.Path colour false))

/-- Model decoding of `solve_sat`, cell by cell in row-major order. -/
def decodeModel (g : Grid) (colours : List Colour) (σ : Nat → Bool) : Option Grid :=
  ((List.range g.height).flatMap (fun y =>
      (List.range g.width).map (fun x => (⟨x, y⟩ : Point)))).foldl
    (decodeCell g colours σ) (some g)

/-- `solve_sat`, abstracting the external SAT engine as an oracle that may
return a model of the formula.  (Solver-internal failure or
unsatisfiability both yield `none` in the source.) -/
def solve_sat (oracle : List (List Int) → Option (Nat → Bool)) (grid : Grid) :
    Option Grid :=
  match grid.get_endpoints with
  | none => none
  | some endpoints =>
    let colours := endpoints.map (fun e => e.1)
    match oracle (buildFormula grid colours endpoints) with
    | none => none
    | some σ => decodeModel grid colours σ

/-! ## Loader (`utils.rs` / `board.rs`) -/

/-- `Colour::from_char`; `none` models the `panic!` on an invalid char. -/
def Colour.from_char (c : Char) : Option Colour :=
  match c with
  | 'R' => some Colour.Red
  | 'B' => some Colour.Blue
  | 'G' => some Colour.Green
  | 'M' => some Colour.Magenta
  | 'Y' => some Colour.Yellow
  | 'O' => some Colour.Orange
  | 'C' => some Colour.Cyan
  | 'm' => some Colour.Brown
  | 'P' => some Colour.Purple
  | 'W' => some Colour.White
  | 'g' => some Colour.Gray
  | 'L' => some Colour.Lime
  | 'b' => some Colour.Beige
  | 'N' => some Colour.Navy
  | 'T' => some Colour.Teal
  | 'p' => some Colour.Pink
  | _ => none

/-- `Grid::new`: an all-empty matrix with the endpoint cells placed. -/
def Grid.new (width height : Nat) (endpoints : List (Colour × Point × Point)) : Grid :=
  endpoints.foldl
    (fun g e => (g.set e.2.1 (Cell.Endpoint e.1 false)).set e.2.2 (Cell.Endpoint e.1 false))
    { width := width, height := height,
      cells := List.replicate height (List.replicate width Cell.Empty) }

/-- `grid_from_txt` of `utils.rs` on in-memory lines: scan the rows for
alphabetic colour characters, require exactly two endpoints per colour
(`none` models the `assert!`/`panic!` failures), and build the grid. -/
def grid_from_lines (lines : List String) : Option Grid :=
  let width := (lines.map (fun l => l.length)).foldl Nat.max 0
  let height := lines.length
  let scanned : Option (List (Colour × Point)) :=
    (lines.enum.flatMap (fun li =>
      li.2.toList.enum.filterMap (fun ci =>
        if ci.2.isAlpha then some (ci.2, (⟨ci.1, li.1⟩ : Point)) else none))).foldl
      (fun acc cp =>
        match acc, Colour.from_char cp.1 with
        | some l, some colour => some (l ++ [(colour, cp.2)])
        | _, _ => none) (some [])
  match scanned with
  | none => none
  | some eps =>
    let colours := (eps.map Prod.fst).eraseDups
    if colours.all (fun c => ((eps.filter (fun e => e.1 = c)).length = 2 : Bool)) then
      some (Grid.new width height (colours.map (fun c =>
        let pts := (eps.filter (fun e => e.1 = c)).map Prod.snd
        (c, pts.getD 0 ⟨0, 0⟩, pts.getD 1 ⟨0, 0⟩))))
    else none

/-! ## Spec-level notions

The next definitions are *modelled from the spec*, not from the source:
they render the specification's own vocabulary ("a solution", "a border
path", "the number of moves taken") so that claims stated in that
vocabulary can be compared against the behaviour of the embedded code. -/

/-- Modelled from the spec (§3): `sol` is a solution of `input` — same
shape, endpoints preserved at the same positions with the same colours,
every other cell filled with some path colour, and `is_solved` holds for
the input's endpoint map. -/
def isSolutionOf (input sol : Grid) : Bool :=
  sol.width = input.width && sol.height = input.height &&
  ((List.range input.height).all (fun y =>
    (List.range input.width).all (fun x =>
      let p : Point := ⟨x, y⟩
      match input.get p, sol.get p with
      | Cell.Endpoint c _, Cell.Endpoint c' _ => c = c'
      | Cell.Empty, Cell.Path _ _ => true
      | Cell.Path c _, Cell.Path c' _ => c = c'
      | _, _ => false))) &&
  match input.get_endpoints with
  | some eps => sol.is_solved eps
  | none => false

/-- Are consecutive points of the list 4-adjacent (in-bounds neighbours)? -/
def chainAdjacent (g : Grid) : List Point → Bool
  | [] => true
  | [_] => true
  | a :: b :: rest => b ∈ a.neighbors g.width g.height && chainAdjacent g (b :: rest)

/-- Is the point list duplicate-free? -/
def nodupPoints : List Point → Bool
  | [] => true
  | p :: rest => p ∉ rest && nodupPoints rest

/-- Modelled from the spec (§4.2, guaranteed-path fill): a border path for
`colour` from `start` to `endp` — a duplicate-free 4-adjacent chain whose
cells all lie on the grid border and are empty or of the same colour. -/
def isBorderPathSpec (g : Grid) (colour : Colour) (start endp : Point)
    (pts : List Point) : Bool :=
  pts.head? = some start && pts.getLast? = some endp && nodupPoints pts &&
  chainAdjacent g pts &&
  pts.all (fun p => on_border p g.width g.height &&
    (g.get p = Cell.Empty || colourMatch colour (g.get p)))

/-- Modelled from the spec (§4.4): the number of moves a partial A* state
has taken — every extension appends one cell to one colour's head path,
which starts as the singleton start endpoint. -/
def movesTaken (s : AState) : Nat :=
  (s.paths.map (fun cp => cp.2.length - 1)).sum

/-! ## Concrete inputs used by the claim theorems -/

/-- A single-pair 3×3 puzzle: Red endpoints at (0,0) and (2,0). -/
def puzzleSingle33 : Grid := (grid_from_lines ["R.R", "...", "..."]).getD default

/-- Its endpoint map. -/
def epsSingle33 : List (Colour × Point × Point) := [(Colour.Red, ⟨0, 0⟩, ⟨2, 0⟩)]

/-- A solution of `puzzleSingle33`: every non-endpoint cell is a Red path
(`is_solved` asks for no empty cell and endpoint connectivity only). -/
def solutionSingle33 : Grid :=
  { width := 3, height := 3,
    cells :=
      [[Cell.Endpoint Colour.Red false, Cell.Path Colour.Red false, Cell.Endpoint Colour.Red false],
       [Cell.Path Colour.Red false, Cell.Path Colour.Red false, Cell.Path Colour.Red false],
       [Cell.Path Colour.Red false, Cell.Path Colour.Red false, Cell.Path Colour.Red false]] }

/-- The 6×3 pollution puzzle: an inert Yellow pair, a Red pair in column 1,
a Green pair in column 3 and a Blue pair in column 4. -/
def puzzlePollution : Grid :=
  (grid_from_lines ["YR.GB.", "Y.....", ".R.GB."]).getD default

/-- Its endpoint map (first-discovery order). -/
def epsPollution : List (Colour × Point × Point) :=
  [(Colour.Yellow, ⟨0, 0⟩, ⟨0, 1⟩), (Colour.Red, ⟨1, 0⟩, ⟨1, 2⟩),
   (Colour.Green, ⟨3, 0⟩, ⟨3, 2⟩), (Colour.Blue, ⟨4, 0⟩, ⟨4, 2⟩)]

/-- The 3×3 A* puzzle: Red pair in column 0, Green pair in column 2. -/
def puzzleAstar : Grid := (grid_from_lines ["R.G", "...", "R.G"]).getD default

/-- Its endpoint map. -/
def epsAstar : List (Colour × Point × Point) :=
  [(Colour.Red, ⟨0, 0⟩, ⟨0, 2⟩), (Colour.Green, ⟨2, 0⟩, ⟨2, 2⟩)]

/-- The contents of the A* open set after the first loop iteration (the
initial singleton open set is popped, propagated and expanded). -/
def openAfterFirstStep (g : Grid) (eps : List (Colour × Point × Point)) : List AState :=
  match astarStep ([initialState g eps], []) with
  | Sum.inr st => st.1
  | Sum.inl _ => []

/-- The 1×6 SAT puzzle: Blue endpoints at the ends, Red pair in the middle. -/
def puzzleSat61 : Grid := (grid_from_lines ["B.RR.B"]).getD default

/-- Its endpoint map / colour list. -/
def epsSat61 : List (Colour × Point × Point) :=
  [(Colour.Blue, ⟨0, 0⟩, ⟨5, 0⟩), (Colour.Red, ⟨2, 0⟩, ⟨3, 0⟩)]

def coloursSat61 : List Colour := [Colour.Blue, Colour.Red]

/-- A satisfying assignment of the 1×6 formula: the forced `x` values plus
`TOP|BOTTOM` (an out-of-bounds direction type) at both free cells. -/
def sigmaSat61 : Nat → Bool := fun n => n ∈ [1, 3, 6, 8, 9, 11, 14, 20]

/-- The grid `solve_sat` decodes from any model of the 1×6 formula:
`Blue, Path Blue, Red, Red, Path Blue, Blue` — the Blue endpoints are not
connected, so the result is not solved. -/
def decodedSat61 : Grid :=
  { width := 6, height := 1,
    cells :=
      [[Cell.Endpoint Colour.Blue false, Cell.Path Colour.Blue false,
        Cell.Endpoint Colour.Red false, Cell.Endpoint Colour.Red false,
        Cell.Path Colour.Blue false, Cell.Endpoint Colour.Blue false]] }

/-- The 1×3 SAT puzzle: a Red pair with one middle cell. -/
def puzzleSat13 : Grid := (grid_from_lines ["R.R"]).getD default

/-- Its endpoint map. -/
def epsSat13 : List (Colour × Point × Point) := [(Colour.Red, ⟨0, 0⟩, ⟨2, 0⟩)]

/-- A model of the 1×3 formula selecting the out-of-bounds `TOP|BOTTOM`
direction type (variable 5) at the middle cell. -/
def sigmaSat13 : Nat → Bool := fun n => n ∈ [1, 2, 3, 5]

/-- A 2×1 grid holding a Red endpoint pair. -/
def endpointGrid : Grid := Grid.new 2 1 [(Colour.Red, ⟨0, 0⟩, ⟨1, 0⟩)]

/-- Endpoint preservation (the spec's frame property): every endpoint
cell of `g` is still an endpoint of the same colour at the same position
in `g'`; the `solved` flag is allowed to change (`mark_solved` sets it). -/
def EndpointsAgree (g g' : Grid) : Prop :=
  ∀ p c s, g.get p = Cell.Endpoint c s → ∃ s', g'.get p = Cell.Endpoint c s'

/-- A sound SAT oracle usable in witnesses: it answers with the fixed
model `sigmaSat13` exactly when that model satisfies the query. -/
def oracleSat13 : List (List Int) → Option (Nat → Bool) :=
  fun f => if satisfies sigmaSat13 f then some sigmaSat13 else none

/-! ## C2 — cross-solver agreement (code bug) -/

/-- C2: the claim "on every input with at least one solution the three
solvers succeed and agree" fails on the code: `puzzleSingle33` has a
solution, yet `brute_force` answers `Impossible` (the guaranteed-path
pre-fill claims a non-unique border path and traps the search). -/
theorem brute_force_misses_solvable_puzzle :
    isSolutionOf puzzleSingle33 solutionSingle33 = true ∧
    (brute_force puzzleSingle33).map Prod.fst = some SolveResult.Impossible := by
  decide

/-! ## C4 — guaranteed-path fill (code bug) -/

/-- C4: `fill_guaranteed` claims the empty cell (1,0) for Red although two
distinct border paths join the Red endpoints, contradicting the claim
that a claim happens only for a unique border path. -/
theorem fill_guaranteed_claims_nonunique_border_path :
    puzzleSingle33.get_endpoints = some epsSingle33 ∧
    puzzleSingle33.get ⟨1, 0⟩ = Cell.Empty ∧
    (puzzleSingle33.fill_guaranteed epsSingle33).get ⟨1, 0⟩ = Cell.Path Colour.Red true ∧
    isBorderPathSpec puzzleSingle33 Colour.Red ⟨0, 0⟩ ⟨2, 0⟩
      [⟨0, 0⟩, ⟨1, 0⟩, ⟨2, 0⟩] = true ∧
    isBorderPathSpec puzzleSingle33 Colour.Red ⟨0, 0⟩ ⟨2, 0⟩
      [⟨0, 0⟩, ⟨0, 1⟩, ⟨0, 2⟩, ⟨1, 2⟩, ⟨2, 2⟩, ⟨2, 1⟩, ⟨2, 0⟩] = true ∧
    ([(⟨0, 0⟩ : Point), ⟨1, 0⟩, ⟨2, 0⟩] ≠
      [(⟨0, 0⟩ : Point), ⟨0, 1⟩, ⟨0, 2⟩, ⟨1, 2⟩, ⟨2, 2⟩, ⟨2, 1⟩, ⟨2, 0⟩]) := by
  decide

/-! ## C5 — backtrack purity (code bug) -/

/-- C5: on `puzzlePollution` the pre-fill leaves (3,1) empty, `brute_force`
returns `Impossible`, and yet the final grid holds `Path Green` at (3,1):
a cell painted by `fill_guaranteed` inside a recursive frame that no
frame restores. -/
theorem backtrack_keeps_search_fill_cells :
    puzzlePollution.get_endpoints = some epsPollution ∧
    puzzlePollution.get ⟨3, 1⟩ = Cell.Empty ∧
    (puzzlePollution.fill_guaranteed epsPollution).get ⟨3, 1⟩ = Cell.Empty ∧
    (brute_force puzzlePollution).map Prod.fst = some SolveResult.Impossible ∧
    (brute_force puzzlePollution).map (fun r => r.2.get ⟨3, 1⟩) =
      some (Cell.Path Colour.Green true) := by
  decide

/-! ## C6 — A* priority (corrected) -/

/-- C6 counterexample: after the first `solve_astar` loop iteration on
`puzzleAstar` the open set holds a state whose priority differs from
(moves taken) + (empty cells) — forced-move propagation advanced the
paths without charging `cost`; and the `Ord` instance compares equal on
two states of equal `estimate` but different heuristic, so no lower-`h`
tie-break exists. -/
theorem astar_priority_counterexample :
    puzzleAstar.get_endpoints = some epsAstar ∧
    (∃ s ∈ openAfterFirstStep puzzleAstar epsAstar,
      s.estimate ≠ movesTaken s + heuristic s.grid) ∧
    (stateCmp (initialState puzzleAstar epsAstar)
        { initialState puzzleAstar epsAstar with
            grid := solutionSingle33, estimate := heuristic puzzleAstar } = Ordering.eq ∧
      heuristic solutionSingle33 ≠ heuristic puzzleAstar) := by
  decide

/-! ## C7 — SAT direction-type in-bounds rule (code bug) -/

/-- C7: the 1×3 formula has a model in which the middle cell selects the
`TOP|BOTTOM` direction type even though that type does not name two
in-bounds neighbours — the encoding emits its `y` variable and no clause
constrains it, so invalid direction types are selectable. -/
theorem invalid_direction_type_selectable :
    puzzleSat13.get_endpoints = some epsSat13 ∧
    (validNeighbors puzzleSat13 1 0 (TOP ||| BOTTOM)).length ≠ 2 ∧
    puzzleSat13.get ⟨1, 0⟩ = Cell.Empty ∧
    satisfies sigmaSat13 (buildFormula puzzleSat13 [Colour.Red] epsSat13) = true ∧
    sigmaSat13 (yDirVar puzzleSat13 [Colour.Red] ⟨1, 0⟩ (TOP ||| BOTTOM)) = true := by
  decide

/-! ## C8 — `Grid::set` endpoint overwrite (corrected) -/

/-- C8 counterexample: `set` overwrites an `Endpoint` cell in place and
returns the mutated grid; there is no `EndpointOverwrite` failure. -/
theorem set_overwrites_endpoint :
    endpointGrid.get ⟨0, 0⟩ = Cell.Endpoint Colour.Red false ∧
    (endpointGrid.set ⟨0, 0⟩ (Cell.Path Colour.Green false)).get ⟨0, 0⟩ =
      Cell.Path Colour.Green false ∧
    endpointGrid.set ⟨0, 0⟩ (Cell.Path Colour.Green false) ≠ endpointGrid := by
  decide

/-! ## List and cell-store lemmas -/

theorem listSet_getD_ne {α : Type} (l : List α) (i j : Nat) (a d : α) (h : i ≠ j) :
    (l.set i a).getD j d = l.getD j d := by
  induction l generalizing i j with
  | nil => simp
  | cons x xs ih =>
    cases i with
    | zero =>
      cases j with
      | zero => exact absurd rfl h
      | succ j => simp [List.set, List.getD]
    | succ i =>
      cases j with
      | zero => simp [List.set, List.getD]
      | succ j =>
        simp only [List.set, List.getD_cons_succ]
        exact ih i j (fun hc => h (by omega))

theorem listSet_getD_self {α : Type} (l : List α) (i : Nat) (a d : α)
    (h : i < l.length) : (l.set i a).getD i d = a := by
  induction l generalizing i with
  | nil => simp at h
  | cons x xs ih =>
    cases i with
    | zero => simp [List.set, List.getD]
    | succ i =>
      simp only [List.set, List.getD_cons_succ]
      exact ih i (by simpa using h)

theorem listSet_of_length_le {α : Type} (l : List α) (i : Nat) (a : α)
    (h : l.length ≤ i) : l.set i a = l := by
  induction l generalizing i with
  | nil => simp
  | cons x xs ih =>
    cases i with
    | zero => simp at h
    | succ i => simp only [List.set]; rw [ih i (by simpa using h)]

/-- Reading back an untouched cell after `set`. -/
theorem Grid.get_set_ne (g : Grid) (p q : Point) (v : Cell) (h : q ≠ p) :
    (g.set p v).get q = g.get q := by
  unfold Grid.get Grid.set
  by_cases hy : q.y = p.y
  · have hx : q.x ≠ p.x := by
      intro hx; exact h (by cases p; cases q; simp_all)
    by_cases hlen : p.y < g.cells.length
    · rw [hy, listSet_getD_self _ _ _ _ hlen]
      exact listSet_getD_ne _ _ _ _ _ (fun hc => hx hc.symm)
    · rw [listSet_of_length_le _ _ _ (by omega)]
  · rw [listSet_getD_ne _ _ _ _ _ (fun hc => hy hc.symm)]

/-- Reading back the written cell after an in-bounds `set`. -/
theorem Grid.get_set_self (g : Grid) (p : Point) (v : Cell)
    (hy : p.y < g.cells.length) (hx : p.x < (g.cells.getD p.y []).length) :
    (g.set p v).get p = v := by
  unfold Grid.get Grid.set
  rw [listSet_getD_self _ _ _ _ hy, listSet_getD_self _ _ _ _ (by simpa using hx)]

/-- A `set` either lands (the cell now holds `v`) or, out of bounds, the
grid is untouched at `p`. -/
theorem Grid.get_set_self_or (g : Grid) (p : Point) (v : Cell) :
    (g.set p v).get p = v ∨ (g.set p v).get p = g.get p := by
  by_cases hy : p.y < g.cells.length
  · by_cases hx : p.x < (g.cells.getD p.y []).length
    · exact Or.inl (Grid.get_set_self g p v hy hx)
    · right
      unfold Grid.get Grid.set
      rw [listSet_getD_self _ _ _ _ hy]
      rw [listSet_of_length_le _ _ _ (by omega)]
  · right
    unfold Grid.get Grid.set
    rw [listSet_of_length_le _ _ _ (by omega)]

/-! ## C8 (amended) — `Grid::set` stores unconditionally -/

/-- C8 amended: `Grid::set` performs no endpoint check and no error is
raised: an in-bounds `set` always stores `v` at `p` — including over an
`Endpoint` cell — and leaves every other cell unchanged. -/
theorem set_stores_unconditionally (g : Grid) (p : Point) (v : Cell)
    (hy : p.y < g.cells.length) (hx : p.x < (g.cells.getD p.y []).length) :
    (g.set p v).get p = v ∧ ∀ q : Point, q ≠ p → (g.set p v).get q = g.get q :=
  ⟨Grid.get_set_self g p v hy hx, fun q hq => Grid.get_set_ne g p q v hq⟩

/-- Witness: overwriting the Red endpoint of `endpointGrid` at (0,0). -/
theorem set_stores_unconditionally_witness :
    (0 : Nat) < endpointGrid.cells.length ∧
    (0 : Nat) < (endpointGrid.cells.getD 0 []).length ∧
    (endpointGrid.set ⟨0, 0⟩ Cell.Empty).get ⟨0, 0⟩ = Cell.Empty :=
  ⟨by decide, by decide,
    (set_stores_unconditionally endpointGrid ⟨0, 0⟩ Cell.Empty
      (by decide) (by decide)).1⟩

/-! ## C6 (amended) — the open-set priority invariant -/

/-- The `(open, visited)` pair after `n` loop iterations of `solve_astar`
(`none` once the loop has produced an answer). -/
def astarStates (g : Grid) (eps : List (Colour × Point × Point)) :
    Nat → Option (List AState × List Nat)
  | 0 => some ([initialState g eps], [])
  | n + 1 =>
    match astarStates g eps n with
    | some st =>
      match astarStep st with
      | Sum.inr st' => some st'
      | Sum.inl _ => none
    | none => none

theorem foldl_preserve {alpha beta : Type} (f : List alpha → beta → List alpha)
    (P : alpha → Prop)
    (hf : ∀ acc b, (∀ t ∈ acc, P t) → ∀ t ∈ f acc b, P t) :
    ∀ (l : List beta) (acc : List alpha), (∀ t ∈ acc, P t) →
      ∀ t ∈ l.foldl f acc, P t := by
  intro l
  induction l with
  | nil => intro acc hacc t ht; exact hacc t ht
  | cons b bs ih => intro acc hacc; exact ih (f acc b) (hf acc b hacc)

theorem popMin_mem {l : List AState} {s : AState} {rest : List AState}
    (h : popMin l = some (s, rest)) : s ∈ l ∧ ∀ x ∈ rest, x ∈ l := by
  induction l generalizing s rest with
  | nil => simp [popMin] at h
  | cons a as ih =>
    simp only [popMin] at h
    split at h
    · cases h
      simp
    · rename_i r hm
      split at h
      · cases h
        exact ⟨List.mem_cons_self _ _, fun x hx => List.mem_cons_of_mem _ hx⟩
      · cases h
        obtain ⟨h1, h2⟩ := ih hm
        refine ⟨List.mem_cons_of_mem _ h1, fun x hx => ?_⟩
        rcases List.mem_cons.mp hx with hx | hx
        · exact hx ▸ List.mem_cons_self _ _
        · exact List.mem_cons_of_mem _ (h2 x hx)

theorem popMin_eq_none {l : List AState} : popMin l = none ↔ l = [] := by
  cases l with
  | nil => simp [popMin]
  | cons a as =>
    simp only [popMin]
    constructor
    · intro h
      split at h
      · cases h
      · split at h <;> cases h
    · intro h
      cases h

theorem popMin_le {l : List AState} {s : AState} {rest : List AState}
    (h : popMin l = some (s, rest)) : ∀ x ∈ l, s.estimate ≤ x.estimate := by
  induction l generalizing s rest with
  | nil => simp [popMin] at h
  | cons a as ih =>
    simp only [popMin] at h
    split at h
    · rename_i hm
      cases h
      intro x hx
      rcases List.mem_cons.mp hx with hx | hx
      · exact hx ▸ Nat.le_refl _
      · rw [popMin_eq_none.mp hm] at hx; simp at hx
    · rename_i r hm
      split at h
      · rename_i hle
        cases h
        intro x hx
        rcases List.mem_cons.mp hx with hx | hx
        · exact hx ▸ Nat.le_refl _
        · exact Nat.le_trans hle (ih hm x hx)
      · rename_i hle
        cases h
        intro x hx
        rcases List.mem_cons.mp hx with hx | hx
        · exact hx ▸ Nat.le_of_lt (Nat.lt_of_not_le hle)
        · exact ih hm x hx

/-- Every state pushed by `successorStep` carries, by construction,
`estimate = cost + heuristic grid`. -/
theorem successorStep_estimate (s : AState) (active : Colour) (path : List Point)
    (acc : List AState) (n : Point) (hacc : ∀ t ∈ acc, t.estimate = t.cost + heuristic t.grid) :
    ∀ t ∈ successorStep s active path acc n, t.estimate = t.cost + heuristic t.grid := by
  intro t ht
  unfold successorStep at ht
  split at ht
  · rcases List.mem_append.mp ht with ht | ht
    · exact hacc t ht
    · simp only [List.mem_singleton] at ht; subst ht; rfl
  · split at ht
    · rcases List.mem_append.mp ht with ht | ht
      · exact hacc t ht
      · simp only [List.mem_singleton] at ht; subst ht; rfl
    · exact hacc t ht
  · exact hacc t ht

/-- Every state emitted by `successors` carries
`estimate = cost + heuristic grid`. -/
theorem successors_estimate (s : AState) :
    ∀ t ∈ successors s, t.estimate = t.cost + heuristic t.grid := by
  intro t ht
  unfold successors at ht
  split at ht
  · simp at ht
  · rename_i active hactive
    dsimp only at ht
    split at ht
    · simp at ht
    · exact foldl_preserve _ _ (successorStep_estimate s active _) _ []
        (by simp) t ht

/-- `astarStep` preserves the open-set estimate invariant. -/
theorem astarStep_estimate {st st' : List AState × List Nat}
    (hstep : astarStep st = Sum.inr st')
    (hp : ∀ s ∈ st.1, s.estimate = s.cost + heuristic s.grid) :
    ∀ s ∈ st'.1, s.estimate = s.cost + heuristic s.grid := by
  unfold astarStep at hstep
  split at hstep
  · cases hstep
  · rename_i sr hpop
    obtain ⟨hmem, hsub⟩ := popMin_mem hpop
    split at hstep
    · cases hstep
      intro s hs
      exact hp s (hsub s hs)
    · split at hstep
      · cases hstep
        intro s hs
        exact hp s (hsub s hs)
      · split at hstep
        · cases hstep
        · cases hstep
          intro s hs
          rcases List.mem_append.mp hs with hs | hs
          · exact hp s (hsub s hs)
          · exact successors_estimate _ s hs

/-- C6 amended: during any `solve_astar` run, every state in the open set
carries `estimate = cost + heuristic(grid)` — `cost` counts only
branching extensions because forced-move propagation leaves `cost`
unchanged (and propagated states are expanded, never re-enqueued) — and
the pop operation returns a state of minimal `estimate`.  The comparator
consults nothing but `estimate` (no lower-`h` or FIFO tie-break). -/
theorem astar_open_estimate_invariant (g : Grid) (eps : List (Colour × Point × Point))
    (n : Nat) (st : List AState × List Nat) (h : astarStates g eps n = some st) :
    (∀ s ∈ st.1, s.estimate = s.cost + heuristic s.grid) ∧
    (∀ s rest, popMin st.1 = some (s, rest) → ∀ x ∈ st.1, s.estimate ≤ x.estimate) ∧
    (∀ a b : AState, stateCmp a b = compare b.estimate a.estimate) := by
  refine ⟨?_, fun s rest hpop x hx => popMin_le hpop x hx, fun a b => rfl⟩
  induction n generalizing st with
  | zero =>
    cases h
    intro s hs
    simp only [List.mem_singleton] at hs
    subst hs
    simp [initialState]
  | succ n ih =>
    simp only [astarStates] at h
    split at h
    · rename_i stp hprev
      split at h
      · rename_i st2 hstep
        cases h
        exact astarStep_estimate hstep (ih stp hprev)
      · cases h
    · cases h

/-- Witness for the amended C6 theorem at the concrete A* puzzle after one
loop iteration. -/
theorem astar_open_estimate_invariant_witness :
    ∃ st, astarStates puzzleAstar epsAstar 1 = some st ∧
      ∀ s ∈ st.1, s.estimate = s.cost + heuristic s.grid := by
  cases hst : astarStates puzzleAstar epsAstar 1 with
  | none => exact absurd hst (by decide)
  | some st =>
    exact ⟨st, rfl, (astar_open_estimate_invariant puzzleAstar epsAstar 1 st hst).1⟩

/-! ## C10 — `brute_force_with_callback` with an always-true callback -/

theorem tryPathsCB_eq (endpoints : List (Colour × Point × Point)) (colour : Colour)
    (cb : StepCallback) (hcb : ∀ g n m, cb g n m = true)
    (next' : Grid → Nat → Bool × Grid × Nat) (next : Grid → Bool × Grid)
    (hnext : ∀ g sc, ((next' g sc).1, (next' g sc).2.1) = next g) :
    ∀ (paths : List (List Point)) (idx : Nat) (g : Grid) (sc : Nat),
      ((tryPathsCB endpoints colour cb next' idx paths g sc).1,
       (tryPathsCB endpoints colour cb next' idx paths g sc).2.1) =
      tryPaths endpoints colour next paths g := by
  intro paths
  induction paths with
  | nil => intro idx g sc; rfl
  | cons path rest ih =>
    intro idx g sc
    unfold tryPathsCB tryPaths
    dsimp only
    rw [hcb]
    simp only [Bool.not_true, Bool.false_eq_true, if_false]
    have h := hnext ((paintPath colour path g).fill_guaranteed endpoints) (sc + 1)
    set r := next' ((paintPath colour path g).fill_guaranteed endpoints) (sc + 1) with hr
    cases hn : next ((paintPath colour path g).fill_guaranteed endpoints) with
    | mk b g2 =>
      rw [hn] at h
      have hb : r.1 = b := congrArg Prod.fst h
      have hg : r.2.1 = g2 := congrArg Prod.snd h
      rw [hb, hg]
      cases b with
      | true => simp [hg]
      | false =>
        simp only [Bool.false_eq_true, if_false]
        rw [hcb]
        simp only [Bool.not_true, Bool.false_eq_true, if_false]
        exact ih (idx + 1) (unpaintPath colour path g2) (r.2.2 + 1)

theorem backtrackCB_eq (pairs endpoints : List (Colour × Point × Point))
    (cb : StepCallback) (hcb : ∀ g n m, cb g n m = true) :
    ∀ (fuel idx : Nat) (g : Grid) (sc : Nat),
      ((backtrackCB pairs endpoints cb fuel idx g sc).1,
       (backtrackCB pairs endpoints cb fuel idx g sc).2.1) =
      backtrack pairs endpoints fuel idx g := by
  intro fuel
  induction fuel with
  | zero => intro idx g sc; rfl
  | succ fuel ih =>
    intro idx g sc
    unfold backtrackCB backtrack
    cases pairs.get? idx with
    | none => rfl
    | some e =>
      dsimp only
      split
      · exact ih (idx + 1) g sc
      · split
        · rfl
        · exact tryPathsCB_eq endpoints e.1 cb hcb _ _
            (fun g sc => ih (idx + 1) g sc) _ 0 g sc

/-- C10: with a callback that always answers `true`, the instrumented
solver returns the same `Solved`/`Impossible` result as `brute_force` and
leaves the grid in the same final cell-for-cell state — the callback only
observes the search. -/
theorem brute_force_with_callback_true (grid : Grid) (cb : StepCallback)
    (hcb : ∀ g n m, cb g n m = true) :
    brute_force_with_callback grid cb = brute_force grid := by
  unfold brute_force_with_callback brute_force
  cases grid.get_endpoints with
  | none => rfl
  | some endpoints =>
    dsimp only
    have h := backtrackCB_eq endpoints endpoints cb hcb (endpoints.length + 1) 0
      (grid.fill_guaranteed endpoints) 0
    set r := backtrackCB endpoints endpoints cb (endpoints.length + 1) 0
      (grid.fill_guaranteed endpoints) 0 with hrdef
    cases hb : backtrack endpoints endpoints (endpoints.length + 1) 0
      (grid.fill_guaranteed endpoints) with
    | mk b g2 =>
      rw [hb] at h
      have h1 : r.1 = b := congrArg Prod.fst h
      have h2 : r.2.1 = g2 := congrArg Prod.snd h
      rw [h1, h2]

/-- Witness: the equivalence instantiated with the constantly-true
callback on the concrete 3×3 single-pair puzzle. -/
theorem brute_force_with_callback_true_witness :
    brute_force_with_callback puzzleSingle33 (fun _ _ _ => true) =
      brute_force puzzleSingle33 :=
  brute_force_with_callback_true puzzleSingle33 _ (fun _ _ _ => rfl)

/-! ## C9 — `connected` is an equivalence on the colour subgraph

The BFS of `Grid::connected` is characterised against the reflexive
transitive closure of the one-step relation "`v` is an in-bounds
neighbour of `u` carrying the queried colour". -/

/-- One step of the graph the BFS explores: the match arm of `connected`
admits a neighbour exactly when its cell carries the queried colour. -/
def stepRel (g : Grid) (colour : Colour) (u v : Point) : Prop :=
  v ∈ u.neighbors g.width g.height ∧ colourMatch colour (g.get v) = true

/-- Reachability through colour-`colour` cells (the start cell itself is
not inspected, exactly as in the source BFS). -/
def Reach (g : Grid) (colour : Colour) : Point → Point → Prop :=
  Relation.ReflTransGen (stepRel g colour)

/-- `p.x < w ∧ p.y < h`. -/
def inB (w h : Nat) (p : Point) : Prop := p.x < w ∧ p.y < h

@[simp] theorem Point.x_mk (a b : Nat) : (⟨a, b⟩ : Point).x = a := rfl

@[simp] theorem Point.y_mk (a b : Nat) : (⟨a, b⟩ : Point).y = b := rfl

theorem mem_ite_singleton {α : Type} {c : Prop} [Decidable c] {a n : α} :
    n ∈ (if c then [a] else []) ↔ c ∧ n = a := by
  split <;> simp_all

theorem mem_neighbors {n p : Point} {w h : Nat} :
    n ∈ p.neighbors w h ↔
      ((0 < p.x ∧ n = ⟨p.x - 1, p.y⟩) ∨ (p.x + 1 < w ∧ n = ⟨p.x + 1, p.y⟩) ∨
       (0 < p.y ∧ n = ⟨p.x, p.y - 1⟩) ∨ (p.y + 1 < h ∧ n = ⟨p.x, p.y + 1⟩)) := by
  simp [Point.neighbors, mem_ite_singleton]

/-- Neighbours of an in-bounds point are in bounds. -/
theorem neighbors_inB {p n : Point} {w h : Nat} (hp : inB w h p)
    (hn : n ∈ p.neighbors w h) : inB w h n := by
  obtain ⟨hx, hy⟩ := hp
  rcases mem_neighbors.mp hn with ⟨h1, rfl⟩ | ⟨h1, rfl⟩ | ⟨h1, rfl⟩ | ⟨h1, rfl⟩ <;>
    exact ⟨by simp only [Point.x_mk]; omega, by simp only [Point.y_mk]; omega⟩

/-- The neighbour relation is symmetric on in-bounds points. -/
theorem neighbors_symm {p n : Point} {w h : Nat} (hp : inB w h p)
    (hn : n ∈ p.neighbors w h) : p ∈ n.neighbors w h := by
  obtain ⟨hx, hy⟩ := hp
  obtain ⟨px, py⟩ := p
  rcases mem_neighbors.mp hn with ⟨h1, rfl⟩ | ⟨h1, rfl⟩ | ⟨h1, rfl⟩ | ⟨h1, rfl⟩ <;>
    (rw [mem_neighbors];
     simp only [Point.x_mk, Point.y_mk, Point.mk.injEq, and_true, true_and] at hx hy h1 ⊢;
     omega)

section BfsLemmas

variable {g : Grid} {colour : Colour}

theorem bfsPush_visited_mono {acc : List Point × List Point} {n x : Point}
    (hx : x ∈ acc.1) : x ∈ (bfsPush g colour acc n).1 := by
  unfold bfsPush
  split
  · exact hx
  · split
    · exact List.mem_cons_of_mem _ hx
    · exact hx

theorem bfsPush_queue_mono {acc : List Point × List Point} {n x : Point}
    (hx : x ∈ acc.2) : x ∈ (bfsPush g colour acc n).2 := by
  unfold bfsPush
  split
  · exact hx
  · split
    · exact List.mem_append_left _ hx
    · exact hx

theorem bfsPush_visited_from {acc : List Point × List Point} {n x : Point}
    (hx : x ∈ (bfsPush g colour acc n).1) :
    x ∈ acc.1 ∨ (x = n ∧ colourMatch colour (g.get x) = true) := by
  unfold bfsPush at hx
  split at hx
  · exact Or.inl hx
  · split at hx
    · rcases List.mem_cons.mp hx with hx | hx
      · subst hx; right; exact ⟨rfl, by assumption⟩
      · exact Or.inl hx
    · exact Or.inl hx

theorem bfsPush_queue_from {acc : List Point × List Point} {n x : Point}
    (hx : x ∈ (bfsPush g colour acc n).2) :
    x ∈ acc.2 ∨ (x = n ∧ colourMatch colour (g.get x) = true) := by
  unfold bfsPush at hx
  split at hx
  · exact Or.inl hx
  · split at hx
    · rcases List.mem_append.mp hx with hx | hx
      · exact Or.inl hx
      · simp only [List.mem_singleton] at hx; subst hx
        right; exact ⟨rfl, by assumption⟩
    · exact Or.inl hx

theorem bfsPush_new_in_queue {acc : List Point × List Point} {n x : Point}
    (hx : x ∈ (bfsPush g colour acc n).1) (hnot : x ∉ acc.1) :
    x ∈ (bfsPush g colour acc n).2 := by
  unfold bfsPush at hx ⊢
  split at hx
  · exact absurd hx hnot
  · rename_i hn1
    split at hx
    · rename_i hn2
      rw [if_neg hn1, if_pos hn2]
      rcases List.mem_cons.mp hx with hx | hx
      · subst hx
        exact List.mem_append_right _ (List.mem_singleton.mpr rfl)
      · exact absurd hx hnot
    · exact absurd hx hnot

theorem bfsPush_qsubv {acc : List Point × List Point} {n : Point}
    (h : ∀ x ∈ acc.2, x ∈ acc.1) :
    ∀ x ∈ (bfsPush g colour acc n).2, x ∈ (bfsPush g colour acc n).1 := by
  intro x hx
  unfold bfsPush at hx ⊢
  split at hx
  · rename_i hn1
    rw [if_pos hn1]
    exact h x hx
  · rename_i hn1
    split at hx
    · rename_i hn2
      rw [if_neg hn1, if_pos hn2]
      rcases List.mem_append.mp hx with hx | hx
      · exact List.mem_cons_of_mem _ (h x hx)
      · simp only [List.mem_singleton] at hx
        subst hx
        exact List.mem_cons_self _ _
    · rename_i hn2
      rw [if_neg hn1, if_neg hn2]
      exact h x hx

theorem bfsPush_nodup {acc : List Point × List Point} {n : Point}
    (h : acc.1.Nodup) : (bfsPush g colour acc n).1.Nodup := by
  unfold bfsPush
  split
  · exact h
  · split
    · exact List.Nodup.cons (by assumption) h
    · exact h

theorem bfsPush_len {acc : List Point × List Point} {n : Point} :
    (bfsPush g colour acc n).1.length + acc.2.length =
      acc.1.length + (bfsPush g colour acc n).2.length := by
  unfold bfsPush
  split
  · rfl
  · split
    · simp [List.length_append]; omega
    · rfl

theorem bfsPush_covers {acc : List Point × List Point} {n : Point}
    (hc : colourMatch colour (g.get n) = true) : n ∈ (bfsPush g colour acc n).1 := by
  unfold bfsPush
  rw [if_pos hc]
  split
  · assumption
  · exact List.mem_cons_self _ _

theorem bfsPush_len_mono {acc : List Point × List Point} {n : Point} :
    acc.1.length ≤ (bfsPush g colour acc n).1.length := by
  unfold bfsPush
  split
  · exact Nat.le_refl _
  · split
    · exact Nat.le_succ _
    · exact Nat.le_refl _

theorem bfsPush_inB {acc : List Point × List Point} {n x : Point}
    (hacc : ∀ y ∈ acc.1, inB g.width g.height y) (hn : inB g.width g.height n)
    (hx : x ∈ (bfsPush g colour acc n).1) : inB g.width g.height x := by
  rcases bfsPush_visited_from hx with hx | ⟨rfl, _⟩
  · exact hacc x hx
  · exact hn

/-- All the BFS-round facts needed by the worklist induction, packaged
over the fold of `bfsPush` along a neighbour list. -/
theorem bfsFold_spec (l : List Point) :
    ∀ acc : List Point × List Point,
      (∀ x ∈ acc.1, x ∈ (l.foldl (bfsPush g colour) acc).1) ∧
      (∀ x ∈ acc.2, x ∈ (l.foldl (bfsPush g colour) acc).2) ∧
      (∀ x ∈ (l.foldl (bfsPush g colour) acc).1,
        x ∈ acc.1 ∨ (x ∈ l ∧ colourMatch colour (g.get x) = true)) ∧
      (∀ x ∈ (l.foldl (bfsPush g colour) acc).2,
        x ∈ acc.2 ∨ (x ∈ l ∧ colourMatch colour (g.get x) = true)) ∧
      ((∀ x ∈ acc.2, x ∈ acc.1) →
        ∀ x ∈ (l.foldl (bfsPush g colour) acc).2, x ∈ (l.foldl (bfsPush g colour) acc).1) ∧
      (acc.1.Nodup → (l.foldl (bfsPush g colour) acc).1.Nodup) ∧
      ((l.foldl (bfsPush g colour) acc).1.length + acc.2.length =
        acc.1.length + (l.foldl (bfsPush g colour) acc).2.length) ∧
      (∀ n ∈ l, colourMatch colour (g.get n) = true →
        n ∈ (l.foldl (bfsPush g colour) acc).1) ∧
      (∀ x ∈ (l.foldl (bfsPush g colour) acc).1, x ∉ acc.1 →
        x ∈ (l.foldl (bfsPush g colour) acc).2) ∧
      acc.1.length ≤ (l.foldl (bfsPush g colour) acc).1.length := by
  induction l with
  | nil =>
    intro acc
    refine ⟨fun x hx => hx, fun x hx => hx, fun x hx => Or.inl hx, fun x hx => Or.inl hx,
      fun h => h, fun h => h, rfl, by simp, fun x hx hnot => absurd hx hnot, Nat.le_refl _⟩
  | cons n ns ih =>
    intro acc
    obtain ⟨i1, i2, i3, i4, i5, i6, i7, i8, i9, i10⟩ := ih (bfsPush g colour acc n)
    simp only [List.foldl_cons]
    refine ⟨fun x hx => i1 x (bfsPush_visited_mono hx),
      fun x hx => i2 x (bfsPush_queue_mono hx), ?_, ?_, ?_, ?_, ?_, ?_, ?_, ?_⟩
    · intro x hx
      rcases i3 x hx with hx | ⟨hl, hc⟩
      · rcases bfsPush_visited_from hx with hx | ⟨rfl, hc⟩
        · exact Or.inl hx
        · exact Or.inr ⟨List.mem_cons_self _ _, hc⟩
      · exact Or.inr ⟨List.mem_cons_of_mem _ hl, hc⟩
    · intro x hx
      rcases i4 x hx with hx | ⟨hl, hc⟩
      · rcases bfsPush_queue_from hx with hx | ⟨rfl, hc⟩
        · exact Or.inl hx
        · exact Or.inr ⟨List.mem_cons_self _ _, hc⟩
      · exact Or.inr ⟨List.mem_cons_of_mem _ hl, hc⟩
    · intro h
      exact i5 (bfsPush_qsubv h)
    · intro h
      exact i6 (bfsPush_nodup h)
    · have := @bfsPush_len g colour acc n
      omega
    · intro m hm hc
      rcases List.mem_cons.mp hm with hm | hm
      · subst hm
        exact i1 m (bfsPush_covers hc)
      · exact i8 m hm hc
    · intro x hx hnot
      by_cases hmid : x ∈ (bfsPush g colour acc n).1
      · exact i2 x (bfsPush_new_in_queue hmid hnot)
      · exact i9 x hx hmid
    · exact Nat.le_trans bfsPush_len_mono i10

end BfsLemmas

/-- A duplicate-free list of in-bounds points has at most `w * h` members. -/
theorem nodup_inB_length_le {w h : Nat} (l : List Point) (hnd : l.Nodup)
    (hb : ∀ x ∈ l, inB w h x) : l.length ≤ w * h := by
  have hinj : ∀ x ∈ l, ∀ y ∈ l, x.y * w + x.x = y.y * w + y.x → x = y := by
    intro x hx y hy hxy
    obtain ⟨hx1, _⟩ := hb x hx
    obtain ⟨hy1, _⟩ := hb y hy
    have hw : 0 < w := by omega
    have h1 : (x.y * w + x.x) / w = x.y := by
      rw [Nat.mul_comm, Nat.mul_add_div hw, Nat.div_eq_of_lt hx1]
      omega
    have h2 : (y.y * w + y.x) / w = y.y := by
      rw [Nat.mul_comm, Nat.mul_add_div hw, Nat.div_eq_of_lt hy1]
      omega
    have hyy : x.y = y.y := by rw [← h1, ← h2, hxy]
    have hxx : x.x = y.x := by rw [hyy] at hxy; omega
    obtain ⟨xa, xb⟩ := x
    obtain ⟨ya, yb⟩ := y
    simp only [Point.x_mk, Point.y_mk] at hxx hyy
    rw [hxx, hyy]
  have hmapnd : (l.map (fun p => p.y * w + p.x)).Nodup := hnd.map_on hinj
  have hmaplt : ∀ m ∈ l.map (fun p => p.y * w + p.x), m < w * h := by
    intro m hm
    obtain ⟨p, hp, rfl⟩ := List.mem_map.mp hm
    obtain ⟨hp1, hp2⟩ := hb p hp
    calc p.y * w + p.x < (p.y + 1) * w := by
          rw [Nat.add_mul, Nat.one_mul]; omega
      _ ≤ h * w := Nat.mul_le_mul_right w hp2
      _ = w * h := Nat.mul_comm h w
  have hcard : (l.map (fun p => p.y * w + p.x)).length ≤ w * h := by
    have h1 : (l.map (fun p => p.y * w + p.x)).toFinset.card =
        (l.map (fun p => p.y * w + p.x)).length := List.toFinset_card_of_nodup hmapnd
    have h2 : (l.map (fun p => p.y * w + p.x)).toFinset ⊆ Finset.range (w * h) := by
      intro m hm
      exact Finset.mem_range.mpr (hmaplt m (List.mem_toFinset.mp hm))
    have := Finset.card_le_card h2
    rw [h1, Finset.card_range] at this
    exact this
  simpa using hcard

/-- BFS soundness: every queue entry is reachable from the origin, so a
`true` answer exhibits reachability of the target. -/
theorem connectedAux_true {g : Grid} {colour : Colour} {endp : Point} (a : Point) :
    ∀ (fuel : Nat) (visited queue : List Point),
      (∀ x ∈ queue, Reach g colour a x) →
      g.connectedAux colour endp fuel visited queue = true →
      Reach g colour a endp := by
  intro fuel
  induction fuel with
  | zero => intro _ _ _ h; simp [Grid.connectedAux] at h
  | succ fuel ih =>
    intro visited queue hq h
    cases queue with
    | nil => simp [Grid.connectedAux] at h
    | cons current rest =>
      rw [Grid.connectedAux] at h
      split at h
      · rename_i heq
        exact heq ▸ hq current (List.mem_cons_self _ _)
      · refine ih _ _ ?_ h
        intro x hx
        unfold Grid.connectedFold at hx
        obtain ⟨-, -, -, i4, -⟩ :=
          @bfsFold_spec g colour
            (current.neighbors g.width g.height) (visited, rest)
        rcases i4 x hx with hx | ⟨hnb, hc⟩
        · exact hq x (List.mem_cons_of_mem _ hx)
        · exact Relation.ReflTransGen.tail (hq current (List.mem_cons_self _ _)) ⟨hnb, hc⟩

/-- BFS completeness core: a `false` answer under the worklist invariants
yields a step-closed superset of the visited set avoiding the target. -/
theorem connectedAux_false {g : Grid} {colour : Colour} {endp : Point} :
    ∀ (fuel : Nat) (visited queue : List Point),
      (∀ x ∈ queue, x ∈ visited) →
      visited.Nodup →
      (∀ x ∈ visited, inB g.width g.height x) →
      (∀ x ∈ visited, x ∉ queue → ∀ n, stepRel g colour x n → n ∈ visited) →
      (endp ∈ visited → endp ∈ queue) →
      queue.length + (g.width * g.height - visited.length) < fuel →
      g.connectedAux colour endp fuel visited queue = false →
      ∃ S : List Point, (∀ x ∈ visited, x ∈ S) ∧ endp ∉ S ∧
        (∀ x ∈ S, ∀ n, stepRel g colour x n → n ∈ S) := by
  intro fuel
  induction fuel with
  | zero => intro visited queue _ _ _ _ _ hm _; omega
  | succ fuel ih =>
    intro visited queue hqv hnd hinb hproc hend hm hfalse
    cases queue with
    | nil =>
      refine ⟨visited, fun x hx => hx, fun hb => by simpa using hend hb, ?_⟩
      intro x hx n hstep
      exact hproc x hx (by simp) n hstep
    | cons current rest =>
      rw [Grid.connectedAux] at hfalse
      split at hfalse
      · cases hfalse
      · rename_i hne
        have hcur : current ∈ visited := hqv current (List.mem_cons_self _ _)
        have hcurin : inB g.width g.height current := hinb current hcur
        obtain ⟨i1, i2, i3, i4, i5, i6, i7, i8, i9, i10⟩ :=
          @bfsFold_spec g colour
            (current.neighbors g.width g.height) (visited, rest)
        rw [show g.connectedFold colour current (visited, rest) =
          (current.neighbors g.width g.height).foldl (bfsPush g colour)
            (visited, rest) from rfl] at hfalse
        set acc := (current.neighbors g.width g.height).foldl (bfsPush g colour)
          (visited, rest) with hacc
        have hlen : acc.1.length ≤ g.width * g.height :=
          nodup_inB_length_le acc.1 (i6 hnd) (fun x hx => by
            rcases i3 x hx with hx | ⟨hnb, _⟩
            · exact hinb x hx
            · exact neighbors_inB hcurin hnb)
        obtain ⟨S, hS1, hS2, hS3⟩ := ih acc.1 acc.2
          (i5 (fun x hx => hqv x (List.mem_cons_of_mem _ hx)))
          (i6 hnd)
          (fun x hx => by
            rcases i3 x hx with hx | ⟨hnb, _⟩
            · exact hinb x hx
            · exact neighbors_inB hcurin hnb)
          (fun x hx hxq n hstep => by
            rcases i3 x hx with hxv | ⟨hnb, hc⟩
            · by_cases hxc : x = current
              · subst hxc
                exact i8 n hstep.1 hstep.2
              · have hxrest : x ∉ rest := fun hr => hxq (i2 x hr)
                have : n ∈ visited :=
                  hproc x hxv (by
                    intro hmem
                    rcases List.mem_cons.mp hmem with hmem | hmem
                    · exact hxc hmem
                    · exact hxrest hmem) n hstep
                exact i1 n this
            · by_cases hxv : x ∈ visited
              · by_cases hxc : x = current
                · subst hxc
                  exact i8 n hstep.1 hstep.2
                · have hxrest : x ∉ rest := fun hr => hxq (i2 x hr)
                  have : n ∈ visited :=
                    hproc x hxv (by
                      intro hmem
                      rcases List.mem_cons.mp hmem with hmem | hmem
                      · exact hxc hmem
                      · exact hxrest hmem) n hstep
                  exact i1 n this
              · exact absurd (i9 x hx hxv) hxq)
          (fun hb => by
            by_cases hbv : endp ∈ visited
            · have := hend hbv
              rcases List.mem_cons.mp this with hmem | hmem
              · exact absurd hmem.symm hne
              · exact i2 endp hmem
            · exact i9 endp hb hbv)
          (by
            have h7 := i7
            have h10 := i10
            have hl := hlen
            dsimp only at h7 h10
            simp only [List.length_cons] at hm
            omega)
          hfalse
        exact ⟨S, fun x hx => hS1 x (i1 x hx), hS2, hS3⟩

/-- Characterisation of `Grid::connected`: for an in-bounds start the BFS
answers `true` exactly on reachability through colour cells. -/
theorem connected_iff (g : Grid) (colour : Colour) (a b : Point)
    (ha : inB g.width g.height a) :
    g.connected colour a b = true ↔ Reach g colour a b := by
  constructor
  · intro h
    exact connectedAux_true a _ _ _
      (fun x hx => by
        rcases List.mem_singleton.mp hx with rfl
        exact Relation.ReflTransGen.refl) h
  · intro hr
    by_contra hfalse
    rw [Bool.not_eq_true] at hfalse
    have hN : 1 ≤ g.width * g.height :=
      Nat.mul_pos (Nat.lt_of_le_of_lt (Nat.zero_le _) ha.1)
        (Nat.lt_of_le_of_lt (Nat.zero_le _) ha.2)
    obtain ⟨S, hS1, hS2, hS3⟩ := connectedAux_false (g.width * g.height + 1) [a] [a]
      (fun x hx => hx)
      (List.nodup_singleton a)
      (fun x hx => by rcases List.mem_singleton.mp hx with rfl; exact ha)
      (fun x hx hxq => absurd hx hxq)
      (fun hb => hb)
      (by simp only [List.length_singleton]; omega)
      hfalse
    have hbS : b ∈ S := by
      clear hfalse hS2
      induction hr with
      | refl => exact hS1 a (List.mem_singleton.mpr rfl)
      | tail hac hstep ih => exact hS3 _ ih _ hstep
    exact hS2 hbS

/-- All points reached from an in-bounds point are in bounds. -/
theorem reach_inB {g : Grid} {colour : Colour} {a x : Point}
    (ha : inB g.width g.height a) (h : Reach g colour a x) :
    inB g.width g.height x := by
  induction h with
  | refl => exact ha
  | tail _ hstep ih => exact neighbors_inB ih hstep.1

/-- All points reached from `a`, except possibly `a` itself, carry the
queried colour. -/
theorem reach_colour {g : Grid} {colour : Colour} {a x : Point}
    (h : Reach g colour a x) :
    x = a ∨ colourMatch colour (g.get x) = true := by
  induction h with
  | refl => exact Or.inl rfl
  | tail _ hstep _ => exact Or.inr hstep.2

/-- Reachability reverses when the origin cell itself carries the colour
(neighbourhood is symmetric on in-bounds points). -/
theorem reach_symm {g : Grid} {colour : Colour} {a x : Point}
    (ha : inB g.width g.height a) (hca : colourMatch colour (g.get a) = true)
    (h : Reach g colour a x) : Reach g colour x a := by
  induction h with
  | refl => exact Relation.ReflTransGen.refl
  | tail hac hstep ih =>
    rename_i c x'
    refine Relation.ReflTransGen.head ⟨?_, ?_⟩ ih
    · exact neighbors_symm (reach_inB ha hac) hstep.1
    · rcases reach_colour hac with rfl | hc
      · exact hca
      · exact hc

/-- A cell carrying a colour lies in bounds (for a well-formed grid). -/
theorem colour_cell_inB {g : Grid} {colour : Colour} {p : Point} (hwf : g.WF)
    (hc : colourMatch colour (g.get p) = true) : inB g.width g.height p := by
  have hne : g.get p ≠ Cell.Empty := by
    intro he
    rw [he] at hc
    simp [colourMatch] at hc
  unfold Grid.get at hne
  by_cases hy : p.y < g.cells.length
  · have hrow : g.cells.getD p.y [] ∈ g.cells := by
      rw [List.getD_eq_getElem?_getD, List.getElem?_eq_getElem hy]
      exact List.getElem_mem hy
    have hrw : (g.cells.getD p.y []).length = g.width := hwf.2 _ hrow
    by_cases hx : p.x < (g.cells.getD p.y []).length
    · exact ⟨hrw ▸ hx, hwf.1 ▸ hy⟩
    · exact absurd (List.getD_eq_default _ _ (Nat.le_of_not_lt hx)) hne
  · have : g.cells.getD p.y [] = [] :=
      List.getD_eq_default _ _ (Nat.le_of_not_lt hy)
    rw [this] at hne
    simp [List.getD] at hne

/-- C9: `connected` is reflexive, and symmetric / transitive over points
whose cells carry the queried colour, on a well-formed grid. -/
theorem connected_equivalence (g : Grid) (colour : Colour) (a b d : Point)
    (hwf : g.WF)
    (hca : colourMatch colour (g.get a) = true)
    (hcb : colourMatch colour (g.get b) = true)
    (hcd : colourMatch colour (g.get d) = true) :
    g.connected colour a a = true ∧
    (g.connected colour a b = true → g.connected colour b a = true) ∧
    (g.connected colour a b = true → g.connected colour b d = true →
      g.connected colour a d = true) := by
  have hain := colour_cell_inB hwf hca
  have hbin := colour_cell_inB hwf hcb
  have _hdin := colour_cell_inB hwf hcd
  refine ⟨?_, ?_, ?_⟩
  · rw [Grid.connected, Grid.connectedAux]
    simp
  · intro hab
    rw [connected_iff g colour b a hbin]
    exact reach_symm hain hca ((connected_iff g colour a b hain).mp hab)
  · intro hab hbd
    rw [connected_iff g colour a d hain]
    exact Relation.ReflTransGen.trans
      ((connected_iff g colour a b hain).mp hab)
      ((connected_iff g colour b d hbin).mp hbd)

/-- Witness: the equivalence properties instantiated on the 2×1 grid with
the Red endpoint pair. -/
theorem connected_equivalence_witness :
    endpointGrid.WF ∧
    (endpointGrid.connected Colour.Red ⟨0, 0⟩ ⟨0, 0⟩ = true ∧
      (endpointGrid.connected Colour.Red ⟨0, 0⟩ ⟨1, 0⟩ = true →
        endpointGrid.connected Colour.Red ⟨1, 0⟩ ⟨0, 0⟩ = true) ∧
      (endpointGrid.connected Colour.Red ⟨0, 0⟩ ⟨1, 0⟩ = true →
        endpointGrid.connected Colour.Red ⟨1, 0⟩ ⟨1, 0⟩ = true →
        endpointGrid.connected Colour.Red ⟨0, 0⟩ ⟨1, 0⟩ = true)) :=
  ⟨by decide,
    connected_equivalence endpointGrid Colour.Red ⟨0, 0⟩ ⟨1, 0⟩ ⟨1, 0⟩
      (by decide) (by decide) (by decide) (by decide)⟩

/-! ## C1 — solver validity (code bug in `solve_sat`)

On the 1×6 puzzle `B.RR.B`, the unit and endpoint-degree clauses of the
CNF force all twelve colour (`x`) variables, so *every* model — hence the
model of any sound external SAT engine — decodes to the fixed grid
`decodedSat61`, in which the Blue endpoints are joined to one stranded
`Path Blue` cell each and `is_solved` is false.  The direction (`y`)
variables are constrained only by their exactly-one group because the
out-of-bounds `TOP|BOTTOM` type contributes no semantics clauses
(cf. C7), which is what makes the formula satisfiable at all. -/

theorem find?_congr_list {α : Type} (p q : α → Bool) (l : List α)
    (h : ∀ x ∈ l, p x = q x) : l.find? p = l.find? q := by
  induction l with
  | nil => rfl
  | cons a rest ih =>
    rw [List.find?_cons, List.find?_cons, h a (List.mem_cons_self a rest),
      ih (fun x hx => h x (List.mem_cons_of_mem a hx))]

/-- `decodeCell` reads the model only at the cell's own `x` variables. -/
theorem decodeCell_congr (g : Grid) (colours : List Colour) (σ τ : Nat → Bool)
    (p : Point)
    (h : ∀ c ∈ colours, σ (xVar g colours p c) = τ (xVar g colours p c))
    (acc : Option Grid) :
    decodeCell g colours σ acc p = decodeCell g colours τ acc p := by
  cases acc with
  | none => rfl
  | some ng =>
    simp only [decodeCell]
    rw [find?_congr_list (fun c => σ (xVar g colours p c))
      (fun c => τ (xVar g colours p c)) colours h]

theorem decodeFold_congr (g : Grid) (colours : List Colour) (σ τ : Nat → Bool)
    (l : List Point)
    (h : ∀ p ∈ l, ∀ c ∈ colours,
      σ (xVar g colours p c) = τ (xVar g colours p c)) :
    ∀ acc, l.foldl (decodeCell g colours σ) acc
      = l.foldl (decodeCell g colours τ) acc := by
  induction l with
  | nil => intro acc; rfl
  | cons p rest ih =>
    intro acc
    rw [List.foldl_cons, List.foldl_cons,
      decodeCell_congr g colours σ τ p (h p (List.mem_cons_self p rest)) acc]
    exact ih (fun q hq c hc => h q (List.mem_cons_of_mem p hq) c hc) _

/-- Model decoding is determined by the model's values on the `x`
variables of the scanned cells. -/
theorem decodeModel_congr (g : Grid) (colours : List Colour) (σ τ : Nat → Bool)
    (h : ∀ p ∈ (List.range g.height).flatMap (fun y =>
        (List.range g.width).map (fun x => (⟨x, y⟩ : Point))),
      ∀ c ∈ colours, σ (xVar g colours p c) = τ (xVar g colours p c)) :
    decodeModel g colours σ = decodeModel g colours τ :=
  decodeFold_congr g colours σ τ _ h _

/-- Every model of the 1×6 formula decodes to `decodedSat61`: the unit and
degree clauses force all twelve colour variables. -/
theorem sat61_decode_forced (σ : Nat → Bool)
    (hsat : satisfies σ (buildFormula puzzleSat61 coloursSat61 epsSat61)
      = true) :
    decodeModel puzzleSat61 coloursSat61 σ = some decodedSat61 := by
  have hall : ∀ c ∈ buildFormula puzzleSat61 coloursSat61 epsSat61,
      evalClause σ c = true := by
    rw [satisfies, List.all_eq_true] at hsat
    exact hsat
  have u1 : σ 1 = true := by
    have h := hall [1] (by decide); simpa [evalClause, evalLit] using h
  have u2 : σ 2 = false := by
    have h := hall [-2] (by decide); simpa [evalClause, evalLit] using h
  have u3 : σ 3 = true := by
    have h := hall [3] (by decide); simpa [evalClause, evalLit] using h
  have u5 : σ 5 = false := by
    have h := hall [-5] (by decide); simpa [evalClause, evalLit] using h
  have u6 : σ 6 = true := by
    have h := hall [6] (by decide); simpa [evalClause, evalLit] using h
  have u7 : σ 7 = false := by
    have h := hall [-7] (by decide); simpa [evalClause, evalLit] using h
  have u8 : σ 8 = true := by
    have h := hall [8] (by decide); simpa [evalClause, evalLit] using h
  have u9 : σ 9 = true := by
    have h := hall [9] (by decide); simpa [evalClause, evalLit] using h
  have u11 : σ 11 = true := by
    have h := hall [11] (by decide); simpa [evalClause, evalLit] using h
  have u12 : σ 12 = false := by
    have h := hall [-12] (by decide); simpa [evalClause, evalLit] using h
  have u4 : σ 4 = false := by
    have h := hall [-4, -8] (by decide)
    simpa [evalClause, evalLit, u8] using h
  have u10 : σ 10 = false := by
    have h := hall [-6, -10] (by decide)
    simpa [evalClause, evalLit, u6] using h
  have hcong : decodeModel puzzleSat61 coloursSat61 σ
      = decodeModel puzzleSat61 coloursSat61 sigmaSat61 := by
    apply decodeModel_congr
    intro p hp c hc
    rw [show (List.range puzzleSat61.height).flatMap (fun y =>
        (List.range puzzleSat61.width).map (fun x => (⟨x, y⟩ : Point)))
        = [⟨0, 0⟩, ⟨1, 0⟩, ⟨2, 0⟩, ⟨3, 0⟩, ⟨4, 0⟩, ⟨5, 0⟩] from by decide] at hp
    simp only [List.mem_cons, List.not_mem_nil, or_false] at hp
    simp only [coloursSat61, List.mem_cons, List.not_mem_nil, or_false] at hc
    rcases hp with rfl | rfl | rfl | rfl | rfl | rfl <;>
      rcases hc with rfl | rfl <;>
      first
      | (rw [show xVar puzzleSat61 coloursSat61 ⟨0, 0⟩ Colour.Blue = 1
            from by decide, u1]; decide)
      | (rw [show xVar puzzleSat61 coloursSat61 ⟨0, 0⟩ Colour.Red = 2
            from by decide, u2]; decide)
      | (rw [show xVar puzzleSat61 coloursSat61 ⟨1, 0⟩ Colour.Blue = 3
            from by decide, u3]; decide)
      | (rw [show xVar puzzleSat61 coloursSat61 ⟨1, 0⟩ Colour.Red = 4
            from by decide, u4]; decide)
      | (rw [show xVar puzzleSat61 coloursSat61 ⟨2, 0⟩ Colour.Blue = 5
            from by decide, u5]; decide)
      | (rw [show xVar puzzleSat61 coloursSat61 ⟨2, 0⟩ Colour.Red = 6
            from by decide, u6]; decide)
      | (rw [show xVar puzzleSat61 coloursSat61 ⟨3, 0⟩ Colour.Blue = 7
            from by decide, u7]; decide)
      | (rw [show xVar puzzleSat61 coloursSat61 ⟨3, 0⟩ Colour.Red = 8
            from by decide, u8]; decide)
      | (rw [show xVar puzzleSat61 coloursSat61 ⟨4, 0⟩ Colour.Blue = 9
            from by decide, u9]; decide)
      | (rw [show xVar puzzleSat61 coloursSat61 ⟨4, 0⟩ Colour.Red = 10
            from by decide, u10]; decide)
      | (rw [show xVar puzzleSat61 coloursSat61 ⟨5, 0⟩ Colour.Blue = 11
            from by decide, u11]; decide)
      | (rw [show xVar puzzleSat61 coloursSat61 ⟨5, 0⟩ Colour.Red = 12
            from by decide, u12]; decide)
  rw [hcong]
  decide

/-- **C1.** The claim "whenever a solver returns a grid, the returned grid
satisfies `is_solved(endpoints)`" fails for `solve_sat`: on the 1×6 puzzle
`B.RR.B`, any SAT engine that returns a model of the generated formula
makes `solve_sat` return the fixed grid `decodedSat61`, whose Blue
endpoints are not connected, so `is_solved` is false. -/
theorem solve_sat_returns_unsolved_grid
    (oracle : List (List Int) → Option (Nat → Bool)) (σ : Nat → Bool)
    (hor : oracle (buildFormula puzzleSat61 coloursSat61 epsSat61) = some σ)
    (hsat : satisfies σ (buildFormula puzzleSat61 coloursSat61 epsSat61)
      = true) :
    solve_sat oracle puzzleSat61 = some decodedSat61 ∧
      decodedSat61.is_solved epsSat61 = false := by
  constructor
  · rw [solve_sat,
      show puzzleSat61.get_endpoints = some epsSat61 from by decide]
    simp only
    rw [show epsSat61.map (fun e => e.1) = coloursSat61 from by decide, hor]
    exact sat61_decode_forced σ hsat
  · decide

/-- Witness: the concrete model `sigmaSat61` of the 1×6 formula, served by
a constant oracle. -/
theorem solve_sat_returns_unsolved_grid_witness :
    solve_sat (fun _ => some sigmaSat61) puzzleSat61 = some decodedSat61 ∧
      decodedSat61.is_solved epsSat61 = false :=
  solve_sat_returns_unsolved_grid (fun _ => some sigmaSat61) sigmaSat61
    rfl (by decide)

/-! ## C3 — endpoint preservation across the three solvers -/

theorem endpointsAgree_refl (g : Grid) : EndpointsAgree g g :=
  fun _ _ s h => ⟨s, h⟩

theorem endpointsAgree_trans {g1 g2 g3 : Grid} (h12 : EndpointsAgree g1 g2)
    (h23 : EndpointsAgree g2 g3) : EndpointsAgree g1 g3 := by
  intro p c s h
  obtain ⟨s', h'⟩ := h12 p c s h
  exact h23 p c s' h'

/-- Writing to a non-endpoint cell preserves every endpoint. -/
theorem set_agree (g : Grid) (p : Point) (v : Cell)
    (h : ∀ c s, g.get p ≠ Cell.Endpoint c s) : EndpointsAgree g (g.set p v) := by
  intro q c s hq
  by_cases hqp : q = p
  · exact absurd (hqp ▸ hq) (h c s)
  · exact ⟨s, by rw [Grid.get_set_ne g p q v hqp]; exact hq⟩

theorem foldl_agree {α : Type} (f : Grid → α → Grid) (l : List α)
    (hstep : ∀ h a, EndpointsAgree h (f h a)) :
    ∀ g : Grid, EndpointsAgree g (l.foldl f g) := by
  induction l with
  | nil => exact fun g => endpointsAgree_refl g
  | cons a rest ih =>
    intro g
    rw [List.foldl_cons]
    exact endpointsAgree_trans (hstep g a) (ih (f g a))

theorem foldl_pred {α β : Type} (f : β → α → β) (Q : β → Prop) (l : List α)
    (hstep : ∀ b a, Q b → Q (f b a)) : ∀ b, Q b → Q (l.foldl f b) := by
  induction l with
  | nil => exact fun _ hb => hb
  | cons a rest ih =>
    intro b hb
    rw [List.foldl_cons]
    exact ih (f b a) (hstep b a hb)

theorem paintPath_agree (colour : Colour) (path : List Point) (g : Grid) :
    EndpointsAgree g (paintPath colour path g) := by
  unfold paintPath
  refine foldl_agree _ path ?_ g
  intro h p
  split
  · rename_i hemp
    exact set_agree h p _ (fun c s hc => Cell.noConfusion (hemp.symm.trans hc))
  · exact endpointsAgree_refl h

theorem unpaintPath_agree (colour : Colour) (path : List Point) (g : Grid) :
    EndpointsAgree g (unpaintPath colour path g) := by
  unfold unpaintPath
  refine foldl_agree _ path ?_ g
  intro h p
  split
  · rename_i c' s' hpath
    split
    · exact set_agree h p _ (fun c s hc => Cell.noConfusion (hpath.symm.trans hc))
    · exact endpointsAgree_refl h
  · exact endpointsAgree_refl h

theorem mark_solved_agree (g : Grid) (colour : Colour) :
    EndpointsAgree g (g.mark_solved colour) := by
  unfold Grid.mark_solved
  refine foldl_agree _ _ ?_ g
  intro h point
  split
  · rename_i c' s' hpt
    split
    · rename_i hcc
      intro q c s hq
      by_cases hqp : q = point
      · subst hqp
        rcases Grid.get_set_self_or h q (Cell.Endpoint colour true) with he | he
        · refine ⟨true, ?_⟩
          rw [he]
          have : c = c' := by rw [hq] at hpt; exact (Cell.Endpoint.inj hpt).1
          rw [this, hcc]
        · exact ⟨s, by rw [he]; exact hq⟩
      · exact ⟨s, by rw [Grid.get_set_ne h point q _ hqp]; exact hq⟩
    · exact endpointsAgree_refl h
  · rename_i c' s' hpt
    split
    · exact set_agree h point _ (fun c s hc => Cell.noConfusion (hpt.symm.trans hc))
    · exact endpointsAgree_refl h
  · exact endpointsAgree_refl h

/-- Every cell the fill pass proposes to write was `Empty` in the grid it
read, and the written value is never an endpoint. -/
theorem fillPass_mem (g : Grid) (eps : List (Colour × Point × Point)) :
    ∀ u ∈ (fillPass g eps).1, g.get u.1 = Cell.Empty ∧
      ∀ c s, u.2 ≠ Cell.Endpoint c s := by
  unfold fillPass
  refine foldl_pred _
    (fun acc : List (Point × Cell) × List Colour => ∀ u ∈ acc.1,
      g.get u.1 = Cell.Empty ∧ ∀ c s, u.2 ≠ Cell.Endpoint c s)
    eps ?_ ([], []) (by simp)
  intro b e hb
  dsimp only
  split
  · exact hb
  · split
    · exact hb
    · split
      · rename_i path hgpe
        split
        · exact hb
        · intro u hu
          rcases List.mem_append.mp hu with hu | hu
          · exact hb u hu
          · rcases List.mem_map.mp hu with ⟨q, hq, rfl⟩
            refine ⟨of_decide_eq_true (List.mem_filter.mp hq).2, ?_⟩
            intro c s hc
            exact Cell.noConfusion hc
      · exact hb

theorem applyUpdates_agree (updates : List (Point × Cell)) :
    ∀ g : Grid,
      (∀ u ∈ updates, (∀ c s, g.get u.1 ≠ Cell.Endpoint c s) ∧
        (∀ c s, u.2 ≠ Cell.Endpoint c s)) →
      EndpointsAgree g (applyUpdates g updates) := by
  induction updates with
  | nil => exact fun g _ => endpointsAgree_refl g
  | cons u rest ih =>
    intro g hu
    unfold applyUpdates
    rw [List.foldl_cons]
    refine endpointsAgree_trans
      (set_agree g u.1 u.2 (hu u (List.mem_cons_self u rest)).1) ?_
    refine ih (g.set u.1 u.2) ?_
    intro u' hu'
    have h2 := hu u' (List.mem_cons_of_mem u hu')
    refine ⟨?_, h2.2⟩
    intro c s hc
    by_cases hpq : u'.1 = u.1
    · rw [hpq] at hc
      rcases Grid.get_set_self_or g u.1 u.2 with he | he
      · rw [he] at hc
        exact (hu u (List.mem_cons_self u rest)).2 c s hc
      · rw [he] at hc
        exact (hu u (List.mem_cons_self u rest)).1 c s hc
    · rw [Grid.get_set_ne g u.1 u'.1 u.2 hpq] at hc
      exact h2.1 c s hc

theorem fillLoop_agree (eps : List (Colour × Point × Point)) :
    ∀ (fuel : Nat) (g : Grid), EndpointsAgree g (fillLoop eps fuel g) := by
  intro fuel
  induction fuel with
  | zero => exact fun g => endpointsAgree_refl g
  | succ fuel ih =>
    intro g
    rw [fillLoop]
    dsimp only
    split
    · exact endpointsAgree_refl g
    · refine endpointsAgree_trans ?_ (ih _)
      refine endpointsAgree_trans (applyUpdates_agree (fillPass g eps).1 g ?_) ?_
      · intro u hu
        obtain ⟨h1, h2⟩ := fillPass_mem g eps u hu
        exact ⟨fun c s hc => Cell.noConfusion (h1.symm.trans hc), h2⟩
      · exact foldl_agree _ (fillPass g eps).2 (fun h c => mark_solved_agree h c) _

theorem fill_guaranteed_agree (g : Grid) (eps : List (Colour × Point × Point)) :
    EndpointsAgree g (g.fill_guaranteed eps) :=
  fillLoop_agree eps _ g

theorem tryPaths_agree (eps : List (Colour × Point × Point)) (colour : Colour)
    (next : Grid → Bool × Grid) (hnext : ∀ h : Grid, EndpointsAgree h (next h).2) :
    ∀ (paths : List (List Point)) (g : Grid),
      EndpointsAgree g (tryPaths eps colour next paths g).2 := by
  intro paths
  induction paths with
  | nil => exact fun g => endpointsAgree_refl g
  | cons path rest ih =>
    intro g
    rw [tryPaths]
    have hr : EndpointsAgree g
        (next ((paintPath colour path g).fill_guaranteed eps)).2 :=
      endpointsAgree_trans
        (endpointsAgree_trans (paintPath_agree colour path g)
          (fill_guaranteed_agree _ eps))
        (hnext _)
    split
    · exact hr
    · exact endpointsAgree_trans hr
        (endpointsAgree_trans (unpaintPath_agree colour path _) (ih _))

theorem backtrack_agree (pairs eps : List (Colour × Point × Point)) :
    ∀ (fuel index : Nat) (g : Grid),
      EndpointsAgree g (backtrack pairs eps fuel index g).2 := by
  intro fuel
  induction fuel with
  | zero => exact fun _ g => endpointsAgree_refl g
  | succ fuel ih =>
    intro index g
    rw [backtrack]
    split
    · exact endpointsAgree_refl g
    · dsimp only
      split
      · exact ih (index + 1) g
      · split
        · exact endpointsAgree_refl g
        · exact tryPaths_agree eps _ _ (fun h => ih (index + 1) h) _ g

theorem brute_force_agree (g : Grid) (r : SolveResult × Grid)
    (h : brute_force g = some r) : EndpointsAgree g r.2 := by
  unfold brute_force at h
  split at h
  · cases h
  · rename_i eps heps
    cases h
    exact endpointsAgree_trans (fill_guaranteed_agree g eps)
      (backtrack_agree eps eps (eps.length + 1) 0 _)

/-- A forced move always targets an `Empty` cell. -/
theorem forced_move_empty (grid : Grid) (eps : List (Colour × Point × Point))
    (paths : List (Colour × List Point)) (cm : Colour × Point)
    (h : get_forced_moves grid eps paths = some cm) :
    grid.get cm.2 = Cell.Empty := by
  unfold get_forced_moves at h
  dsimp only at h
  split at h
  · rename_i r hr1
    cases h
    obtain ⟨cp, hcp, hf⟩ := List.exists_of_findSome?_eq_some hr1
    split at hf
    · cases hf
    · split at hf
      · rename_i m hfil
        cases hf
        have hm : m ∈ List.filter (fun n => decide (grid.get n = Cell.Empty))
            ((cp.2.getLastD ⟨0, 0⟩).neighbors grid.width grid.height) := by
          rw [hfil]
          exact List.mem_cons_self m []
        exact of_decide_eq_true (List.mem_filter.mp hm).2
      · cases hf
  · obtain ⟨y, hy, hf⟩ := List.exists_of_findSome?_eq_some h
    obtain ⟨x, hx, hg⟩ := List.exists_of_findSome?_eq_some hf
    split at hg
    · rename_i hemp
      split at hg
      · cases hg
        exact hemp
      · cases hg
    · cases hg

theorem propagate_agree : ∀ (fuel : Nat) (s : AState),
    EndpointsAgree s.grid (propagate fuel s).grid := by
  intro fuel
  induction fuel with
  | zero =>
    intro s
    simp only [propagate]
    exact endpointsAgree_refl s.grid
  | succ fuel ih =>
    intro s
    simp only [propagate]
    split
    · rename_i cm hcm
      refine endpointsAgree_trans
        (set_agree s.grid cm.2 (Cell.Path cm.1 false) ?_)
        (ih { grid := s.grid.set cm.2 (Cell.Path cm.1 false),
              endpoints := s.endpoints,
              paths := updatePaths s.paths cm.1
                ((List.lookup cm.1 s.paths).getD [] ++ [cm.2]),
              cost := s.cost,
              estimate := heuristic (s.grid.set cm.2 (Cell.Path cm.1 false)) })
      intro c s' hc
      rw [forced_move_empty s.grid s.endpoints s.paths cm hcm] at hc
      exact Cell.noConfusion hc
    · exact endpointsAgree_refl s.grid

theorem successorStep_agree (s : AState) (ac : Colour) (path : List Point)
    (acc : List AState) (n : Point)
    (hacc : ∀ t ∈ acc, EndpointsAgree s.grid t.grid) :
    ∀ t ∈ successorStep s ac path acc n, EndpointsAgree s.grid t.grid := by
  intro t ht
  unfold successorStep at ht
  split at ht
  · rename_i hemp
    rcases List.mem_append.mp ht with ht | ht
    · exact hacc t ht
    · rcases List.mem_singleton.mp ht with rfl
      exact set_agree s.grid n _
        (fun c s' hc => Cell.noConfusion (hemp.symm.trans hc))
  · rename_i c hcend
    split at ht
    · rcases List.mem_append.mp ht with ht | ht
      · exact hacc t ht
      · rcases List.mem_singleton.mp ht with rfl
        exact endpointsAgree_refl s.grid
    · exact hacc t ht
  · exact hacc t ht

theorem successors_agree (s : AState) :
    ∀ t ∈ successors s, EndpointsAgree s.grid t.grid := by
  unfold successors
  split
  · simp
  · rename_i ac hac
    dsimp only
    split
    · simp
    · refine foldl_pred _
        (fun acc : List AState => ∀ t ∈ acc, EndpointsAgree s.grid t.grid)
        _ ?_ [] (by simp)
      intro b a hb
      exact successorStep_agree s ac _ b a hb

theorem astarStep_agree (g0 : Grid) (st : List AState × List Nat)
    (hopen : ∀ t ∈ st.1, EndpointsAgree g0 t.grid) :
    (∀ g', astarStep st = Sum.inl (some g') → EndpointsAgree g0 g') ∧
    (∀ st', astarStep st = Sum.inr st' →
      ∀ t ∈ st'.1, EndpointsAgree g0 t.grid) := by
  unfold astarStep
  split
  · refine ⟨fun g' h => ?_, fun st' h => ?_⟩
    · simp at h
    · cases h
  · rename_i sr hpop
    obtain ⟨s1, rest⟩ := sr
    obtain ⟨hmem, hrest⟩ := popMin_mem hpop
    have hs1 : EndpointsAgree g0 s1.grid := hopen s1 hmem
    split
    · refine ⟨fun g' h => ?_, fun st' h => ?_⟩
      · cases h
      · cases h
        intro t ht
        exact hopen t (hrest t ht)
    · split
      · refine ⟨fun g' h => ?_, fun st' h => ?_⟩
        · cases h
        · cases h
          intro t ht
          exact hopen t (hrest t ht)
      · split
        · refine ⟨fun g' h => ?_, fun st' h => ?_⟩
          · cases h
            exact endpointsAgree_trans hs1 (propagate_agree _ s1)
          · cases h
        · refine ⟨fun g' h => ?_, fun st' h => ?_⟩
          · cases h
          · cases h
            intro t ht
            rcases List.mem_append.mp ht with ht | ht
            · exact hopen t (hrest t ht)
            · exact endpointsAgree_trans
                (endpointsAgree_trans hs1 (propagate_agree _ s1))
                (successors_agree _ t ht)

theorem astarLoop_agree (g0 : Grid) :
    ∀ (fuel : Nat) (st : List AState × List Nat) (g' : Grid),
      (∀ t ∈ st.1, EndpointsAgree g0 t.grid) →
      astarLoop fuel st = some g' → EndpointsAgree g0 g' := by
  intro fuel
  induction fuel with
  | zero =>
    intro st g' _ h
    simp [astarLoop] at h
  | succ fuel ih =>
    intro st g' hopen h
    rw [astarLoop] at h
    split at h
    · rename_i r hstep
      exact (astarStep_agree g0 st hopen).1 g'
        (hstep.trans (congrArg Sum.inl h))
    · rename_i st' hstep
      exact ih st' g' ((astarStep_agree g0 st hopen).2 st' hstep) h

theorem solve_astar_agree (fuel : Nat) (g g' : Grid)
    (h : solve_astar fuel g = some g') : EndpointsAgree g g' := by
  unfold solve_astar at h
  split at h
  · cases h
  · rename_i eps heps
    refine astarLoop_agree g fuel ([initialState g eps], []) g' ?_ h
    intro t ht
    rcases List.mem_singleton.mp ht with rfl
    exact endpointsAgree_refl g

theorem mem_eraseDups_loop {α : Type} [BEq α] [LawfulBEq α] :
    ∀ (as bs : List α) (x : α),
      x ∈ List.eraseDups.loop as bs ↔ x ∈ as ∨ x ∈ bs := by
  intro as
  induction as with
  | nil =>
    intro bs x
    simp [List.eraseDups.loop]
  | cons a rest ih =>
    intro bs x
    rw [List.eraseDups.loop]
    split
    · rename_i helem
      rw [ih bs x]
      constructor
      · rintro (h | h)
        · exact Or.inl (List.mem_cons_of_mem a h)
        · exact Or.inr h
      · rintro (h | h)
        · rcases List.mem_cons.mp h with rfl | h
          · exact Or.inr (List.mem_of_elem_eq_true helem)
          · exact Or.inl h
        · exact Or.inr h
    · rename_i helem
      rw [ih (a :: bs) x]
      constructor
      · rintro (h | h)
        · exact Or.inl (List.mem_cons_of_mem a h)
        · rcases List.mem_cons.mp h with rfl | h
          · exact Or.inl (List.mem_cons_self _ _)
          · exact Or.inr h
      · rintro (h | h)
        · rcases List.mem_cons.mp h with rfl | h
          · exact Or.inr (List.mem_cons_self _ _)
          · exact Or.inl h
        · exact Or.inr (List.mem_cons_of_mem a h)

theorem mem_eraseDups {α : Type} [BEq α] [LawfulBEq α] (l : List α) (x : α) :
    x ∈ l.eraseDups ↔ x ∈ l := by
  rw [List.eraseDups, mem_eraseDups_loop]
  simp

theorem xVar_pos (g : Grid) (colours : List Colour) (p : Point) (c : Colour) :
    0 < xVar g colours p c := by
  unfold xVar
  omega

theorem evalLit_posLit (σ : Nat → Bool) (n : Nat) (hn : 0 < n) :
    evalLit σ (n : Int) = σ n := by
  unfold evalLit
  rw [if_pos (by exact_mod_cast hn), Int.toNat_natCast]

theorem evalLit_negLit (σ : Nat → Bool) (n : Nat) (hn : 0 < n) :
    evalLit σ (-(n : Int)) = !σ n := by
  unfold evalLit
  rw [if_neg (by omega), neg_neg, Int.toNat_natCast]

/-- A positive unit clause of a satisfied formula forces its variable. -/
theorem sat_unit_pos {σ : Nat → Bool} {f : List (List Int)}
    (hsat : satisfies σ f = true) (n : Nat) (hn : 0 < n)
    (hm : [(n : Int)] ∈ f) : σ n = true := by
  rw [satisfies, List.all_eq_true] at hsat
  have h := hsat _ hm
  simpa [evalClause, evalLit_posLit σ n hn] using h

/-- A negative unit clause of a satisfied formula kills its variable. -/
theorem sat_unit_neg {σ : Nat → Bool} {f : List (List Int)}
    (hsat : satisfies σ f = true) (n : Nat) (hn : 0 < n)
    (hm : [-(n : Int)] ∈ f) : σ n = false := by
  rw [satisfies, List.all_eq_true] at hsat
  have h := hsat _ hm
  simpa [evalClause, evalLit_negLit σ n hn] using h

theorem xVar_inj (g : Grid) (colours : List Colour) (p : Point) {c1 c2 : Colour}
    (h1 : c1 ∈ colours) (h2 : c2 ∈ colours)
    (h : xVar g colours p c1 = xVar g colours p c2) : c1 = c2 := by
  unfold xVar colourPos at h
  have hidx : colours.indexOf c1 = colours.indexOf c2 := by omega
  exact (List.indexOf_inj h1 h2).mp hidx

/-- `find?` returns the unique element its predicate accepts. -/
theorem find?_eq_of_forced {α : Type} (pred : α → Bool) (c : α) :
    ∀ l : List α, c ∈ l → pred c = true →
      (∀ x ∈ l, x ≠ c → pred x = false) → l.find? pred = some c := by
  intro l
  induction l with
  | nil =>
    intro hmem _ _
    cases hmem
  | cons a rest ih =>
    intro hmem hc hother
    by_cases hac : a = c
    · subst hac
      rw [List.find?_cons_of_pos _ hc]
    · have hfa : pred a = false := hother a (List.mem_cons_self a rest) hac
      rw [List.find?_cons_of_neg _ (by rw [hfa]; exact Bool.false_ne_true)]
      refine ih ?_ hc ?_
      · rcases List.mem_cons.mp hmem with h | h
        · exact absurd h.symm hac
        · exact h
      · exact fun x hx => hother x (List.mem_cons_of_mem a hx)

/-- An endpoint cell of a well-formed grid lies inside the scan window. -/
theorem get_endpoint_bounds (g : Grid) (hwf : g.WF) (q : Point) (c : Colour)
    (s : Bool) (hq : g.get q = Cell.Endpoint c s) :
    q.x < g.width ∧ q.y < g.height := by
  unfold Grid.get at hq
  rw [List.getD_eq_get?, List.getD_eq_get?] at hq
  cases hrow : g.cells.get? q.y with
  | none =>
    rw [hrow] at hq
    simp at hq
  | some row =>
    rw [hrow] at hq
    simp only [Option.getD_some] at hq
    have hyl : q.y < g.cells.length := by
      by_contra hy
      rw [List.get?_eq_none.mpr (by omega)] at hrow
      cases hrow
    have hrlen : row.length = g.width := hwf.2 row (List.get?_mem hrow)
    constructor
    · by_contra hx
      rw [List.get?_eq_none.mpr (by omega)] at hq
      simp at hq
    · rw [← hwf.1]
      exact hyl

theorem endpointsScan_mem (g : Grid) (hwf : g.WF) (q : Point) (c : Colour)
    (s : Bool) (hq : g.get q = Cell.Endpoint c s) : (c, q) ∈ g.endpointsScan := by
  obtain ⟨hx, hy⟩ := get_endpoint_bounds g hwf q c s hq
  unfold Grid.endpointsScan
  rw [List.mem_flatMap]
  refine ⟨q.y, List.mem_range.mpr hy, ?_⟩
  rw [List.mem_filterMap]
  refine ⟨q.x, List.mem_range.mpr hx, ?_⟩
  have hpq : (⟨q.x, q.y⟩ : Point) = q := by cases q; rfl
  rw [hpq, hq]

/-- Every endpoint cell appears in the pair list of `get_endpoints`, under
its own colour, as one of the two stored positions. -/
theorem endpoint_mem_eps (g : Grid) (eps : List (Colour × Point × Point))
    (hwf : g.WF) (heps : g.get_endpoints = some eps) (q : Point) (c : Colour)
    (s : Bool) (hq : g.get q = Cell.Endpoint c s) :
    ∃ e ∈ eps, e.1 = c ∧ (q = e.2.1 ∨ q = e.2.2) := by
  have hscan := endpointsScan_mem g hwf q c s hq
  unfold Grid.get_endpoints at heps
  dsimp only at heps
  split at heps
  · rename_i hall
    cases heps
    have hcmem : c ∈ (g.endpointsScan.map Prod.fst).eraseDups := by
      rw [mem_eraseDups]
      exact List.mem_map.mpr ⟨(c, q), hscan, rfl⟩
    refine ⟨_, List.mem_map.mpr ⟨c, hcmem, rfl⟩, rfl, ?_⟩
    have hlen : (g.endpointsScan.filter (fun e => e.1 = c)).length = 2 :=
      of_decide_eq_true ((List.all_eq_true.mp hall) c hcmem)
    have hpts : q ∈ (g.endpointsScan.filter (fun e => e.1 = c)).map Prod.snd :=
      List.mem_map.mpr ⟨(c, q), List.mem_filter.mpr ⟨hscan, by simp⟩, rfl⟩
    have hlen2 :
        ((g.endpointsScan.filter (fun e => e.1 = c)).map Prod.snd).length = 2 := by
      rw [List.length_map]
      exact hlen
    obtain ⟨a, b, hab⟩ := List.length_eq_two.mp hlen2
    rw [hab] at hpts ⊢
    simpa using hpts
  · cases heps

theorem endpointClauses_sub (g : Grid) (colours : List Colour)
    (eps : List (Colour × Point × Point)) (cl : List Int)
    (h : cl ∈ endpointClauses g colours eps) :
    cl ∈ buildFormula g colours eps := by
  unfold buildFormula
  simp only [List.mem_append]
  exact Or.inl (Or.inl (Or.inr h))

/-- The endpoint unit clauses force the endpoint's own colour variable on
and every other colour variable off at both stored positions. -/
theorem endpoint_sigma (g : Grid) (eps : List (Colour × Point × Point))
    (colours : List Colour) (σ : Nat → Bool)
    (hsat : satisfies σ (buildFormula g colours eps) = true)
    (e : Colour × Point × Point) (he : e ∈ eps) (q : Point)
    (hqe : q = e.2.1 ∨ q = e.2.2) :
    σ (xVar g colours q e.1) = true ∧
    ∀ c' ∈ colours, c' ≠ e.1 → σ (xVar g colours q c') = false := by
  constructor
  · refine sat_unit_pos hsat _ (xVar_pos g colours q e.1) ?_
    refine endpointClauses_sub g colours eps _ ?_
    refine List.mem_flatMap.mpr ⟨e, he, ?_⟩
    dsimp only
    rcases hqe with rfl | rfl
    · simp
    · simp
  · intro c' hc' hne
    refine sat_unit_neg hsat _ (xVar_pos g colours q c') ?_
    refine endpointClauses_sub g colours eps _ ?_
    refine List.mem_flatMap.mpr ⟨e, he, ?_⟩
    dsimp only
    refine List.mem_append.mpr (Or.inl (List.mem_append.mpr (Or.inr ?_)))
    refine List.mem_flatMap.mpr ⟨c', hc', ?_⟩
    rw [if_pos hne]
    rcases hqe with rfl | rfl
    · simp
    · simp

/-- At an endpoint cell, model decoding always recovers the original
colour: the first colour whose variable is positive is the cell's own. -/
theorem endpoint_decode_find (g : Grid) (eps : List (Colour × Point × Point))
    (σ : Nat → Bool) (hwf : g.WF) (heps : g.get_endpoints = some eps)
    (hsat : satisfies σ (buildFormula g (eps.map (fun e => e.1)) eps) = true)
    (q : Point) (c : Colour) (s : Bool) (hq : g.get q = Cell.Endpoint c s) :
    (eps.map (fun e => e.1)).find?
      (fun c2 => σ (xVar g (eps.map (fun e => e.1)) q c2)) = some c := by
  obtain ⟨e, he, hec, hqe⟩ := endpoint_mem_eps g eps hwf heps q c s hq
  obtain ⟨hpos, hneg⟩ := endpoint_sigma g eps _ σ hsat e he q hqe
  subst hec
  refine find?_eq_of_forced _ e.1 _ ?_ ?_ ?_
  · exact List.mem_map.mpr ⟨e, he, rfl⟩
  · exact hpos
  · intro x hx hxne
    exact hneg x hx hxne

theorem decodeFold_none (g : Grid) (colours : List Colour) (σ : Nat → Bool) :
    ∀ l : List Point, l.foldl (decodeCell g colours σ) none = none := by
  intro l
  induction l with
  | nil => rfl
  | cons p rest ih =>
    rw [List.foldl_cons]
    exact ih

/-- The decode fold touches an endpoint cell of `g` exactly once, writing
an endpoint of the original colour, and never overwrites it afterwards. -/
theorem decodeFold_agree (g : Grid) (colours : List Colour) (σ : Nat → Bool)
    (hfind : ∀ q c s, g.get q = Cell.Endpoint c s →
      colours.find? (fun c2 => σ (xVar g colours q c2)) = some c) :
    ∀ (l : List Point) (acc g' : Grid),
      (∀ p c s, g.get p = Cell.Endpoint c s →
        acc.get p = g.get p ∨ acc.get p = Cell.Endpoint c false) →
      l.foldl (decodeCell g colours σ) (some acc) = some g' →
      (∀ p c s, g.get p = Cell.Endpoint c s →
        g'.get p = g.get p ∨ g'.get p = Cell.Endpoint c false) := by
  intro l
  induction l with
  | nil =>
    intro acc g' hacc h
    rw [List.foldl_nil] at h
    cases h
    exact hacc
  | cons pt rest ih =>
    intro acc g' hacc h
    rw [List.foldl_cons] at h
    cases hgpt : g.get pt with
    | Endpoint cq sq =>
      have hf := hfind pt cq sq hgpt
      have hdc : decodeCell g colours σ (some acc) pt
          = some (acc.set pt (Cell.Endpoint cq false)) := by
        simp only [decodeCell, hf, hgpt]
      rw [hdc] at h
      refine ih _ g' ?_ h
      intro p c s hp
      by_cases hppt : p = pt
      · subst hppt
        have hc : c = cq := (Cell.Endpoint.inj (hp.symm.trans hgpt)).1
        rcases Grid.get_set_self_or acc p (Cell.Endpoint cq false) with he | he
        · right
          rw [he, hc]
        · rw [he]
          exact hacc p c s hp
      · rw [Grid.get_set_ne acc pt p _ hppt]
        exact hacc p c s hp
    | Empty =>
      cases hf : colours.find? (fun c2 => σ (xVar g colours pt c2)) with
      | none =>
        have hdc : decodeCell g colours σ (some acc) pt = none := by
          simp only [decodeCell, hf]
        rw [hdc, decodeFold_none] at h
        cases h
      | some colour =>
        have hdc : decodeCell g colours σ (some acc) pt
            = some (acc.set pt (Cell.Path colour false)) := by
          simp only [decodeCell, hf, hgpt]
        rw [hdc] at h
        refine ih _ g' ?_ h
        intro p c s hp
        by_cases hppt : p = pt
        · subst hppt
          exact absurd (hp.symm.trans hgpt) (fun x => Cell.noConfusion x)
        · rw [Grid.get_set_ne acc pt p _ hppt]
          exact hacc p c s hp
    | Path cpp spp =>
      cases hf : colours.find? (fun c2 => σ (xVar g colours pt c2)) with
      | none =>
        have hdc : decodeCell g colours σ (some acc) pt = none := by
          simp only [decodeCell, hf]
        rw [hdc, decodeFold_none] at h
        cases h
      | some colour =>
        have hdc : decodeCell g colours σ (some acc) pt
            = some (acc.set pt (Cell.Path colour false)) := by
          simp only [decodeCell, hf, hgpt]
        rw [hdc] at h
        refine ih _ g' ?_ h
        intro p c s hp
        by_cases hppt : p = pt
        · subst hppt
          exact absurd (hp.symm.trans hgpt) (fun x => Cell.noConfusion x)
        · rw [Grid.get_set_ne acc pt p _ hppt]
          exact hacc p c s hp

theorem decodeModel_agree (g : Grid) (eps : List (Colour × Point × Point))
    (σ : Nat → Bool) (g' : Grid) (hwf : g.WF)
    (heps : g.get_endpoints = some eps)
    (hsat : satisfies σ (buildFormula g (eps.map (fun e => e.1)) eps) = true)
    (hdec : decodeModel g (eps.map (fun e => e.1)) σ = some g') :
    EndpointsAgree g g' := by
  intro p c s hp
  unfold decodeModel at hdec
  have hinv := decodeFold_agree g (eps.map (fun e => e.1)) σ
    (fun q c s hq => endpoint_decode_find g eps σ hwf heps hsat q c s hq)
    _ g g' (fun p c s _ => Or.inl rfl) hdec p c s hp
  rcases hinv with he | he
  · exact ⟨s, by rw [he]; exact hp⟩
  · exact ⟨false, he⟩

theorem solve_sat_agree (oracle : List (List Int) → Option (Nat → Bool))
    (hsound : ∀ f σ, oracle f = some σ → satisfies σ f = true)
    (g g' : Grid) (hwf : g.WF) (h : solve_sat oracle g = some g') :
    EndpointsAgree g g' := by
  unfold solve_sat at h
  split at h
  · cases h
  · rename_i eps heps
    dsimp only at h
    split at h
    · cases h
    · rename_i σ hor
      exact decodeModel_agree g eps σ g' hwf heps (hsound _ σ hor) h

/-- **C3.** Endpoint preservation: for every well-formed input grid, a
cell holding an endpoint before a solver call still holds an endpoint of
the same colour at the same position afterwards — in `brute_force`'s
final mutated grid, in any grid `solve_astar` returns, and in any grid
`solve_sat` returns when its external SAT engine answers with models of
the formula it is given (only the `solved` flag may differ, which
`mark_solved` sets). -/
theorem solvers_preserve_endpoints (g : Grid) (hwf : g.WF) (p : Point)
    (c : Colour) (s : Bool) (hp : g.get p = Cell.Endpoint c s) :
    (∀ r, brute_force g = some r → ∃ s', r.2.get p = Cell.Endpoint c s') ∧
    (∀ fuel g', solve_astar fuel g = some g' →
      ∃ s', g'.get p = Cell.Endpoint c s') ∧
    (∀ oracle g', (∀ f σ, oracle f = some σ → satisfies σ f = true) →
      solve_sat oracle g = some g' → ∃ s', g'.get p = Cell.Endpoint c s') :=
  ⟨fun r hr => brute_force_agree g r hr p c s hp,
   fun fuel g' h => solve_astar_agree fuel g g' h p c s hp,
   fun oracle g' hsound h => solve_sat_agree oracle hsound g g' hwf h p c s hp⟩

/-- Witness: the 1×3 puzzle `R.R`, its Red endpoint at (0,0), and all
three solvers; the SAT engine is the sound oracle `oracleSat13`. -/
theorem solvers_preserve_endpoints_witness :
    (∃ s', ((brute_force puzzleSat13).getD
      (SolveResult.Impossible, default)).2.get ⟨0, 0⟩
        = Cell.Endpoint Colour.Red s') ∧
    (∃ s', ((solve_astar 1 puzzleSat13).getD default).get ⟨0, 0⟩
        = Cell.Endpoint Colour.Red s') ∧
    (∃ s', ((solve_sat oracleSat13 puzzleSat13).getD default).get ⟨0, 0⟩
        = Cell.Endpoint Colour.Red s') := by
  obtain ⟨h1, h2, h3⟩ := solvers_preserve_endpoints puzzleSat13 (by decide)
    ⟨0, 0⟩ Colour.Red false (by decide)
  refine ⟨h1 _ (by decide), h2 1 _ (by decide), h3 oracleSat13 _ ?_ (by decide)⟩
  intro f σ h
  unfold oracleSat13 at h
  split at h
  · rename_i hcond
    cases h
    exact hcond
  · cases h

end Flowrs
